import Mathlib

/-!
# Ceremony peer messaging: frame sync, frame reconstruction, proving-key requests

A shallow embedding of `node/consensus/ceremony/peer_messaging.go`.

* Byte strings (`[]byte`) are lists of naturals; no modelled operation does
  arithmetic on a byte, only comparison, slicing and concatenation.
* `uint64` frame numbers are naturals with explicit reduction modulo `2^64`;
  the Go `int` arithmetic on `len(frame.Input)` is done in `Int` with the
  truncating division `Int.tdiv`.
* A Go function either returns (a value or an `error`) or panics at run time
  (slice bounds out of range, nil pointer dereference): `Outcome`.
* Calls into collaborators (the clock store, the key store, the pubsub
  substrate, protobuf marshalling, `handleClockFrameData`) are parameters of
  the model, and every call to one is recorded in a trace.
* Log statements have no effect and are dropped, except where evaluating
  the arguments of one can fault.
-/

namespace Ceremony

/-- A Go `[]byte`; `bytes.Equal` is list equality (nil and empty agree). -/
abbrev Bytes := List Nat

/-- Go `error` values: the two store sentinels that the file tests for or
returns, any other error, and `errors.Wrap(cause, msg)`. -/
inductive GoError where
  | ErrNotFound
  | ErrInvalidData
  | other (tag : Nat)
  | wrap (cause : GoError) (msg : String)
deriving DecidableEq, Repr

/-- The function `errors.Is(err, target)`: `target` is found somewhere along
the chain of wrapped causes. -/
def errorsIs : GoError → GoError → Bool
  | .wrap cause msg, target =>
    decide (GoError.wrap cause msg = target) || errorsIs cause target
  | .ErrNotFound, target => decide (GoError.ErrNotFound = target)
  | .ErrInvalidData, target => decide (GoError.ErrInvalidData = target)
  | .other tag, target => decide (GoError.other tag = target)

/-- How a call of a Go function ends: it returns a value with a nil error,
returns a non-nil error, or faults with a run-time panic. -/
inductive Outcome (α : Type) where
  | ok (a : α)
  | error (e : GoError)
  | panicked
deriving DecidableEq, Repr

/-- An element of `syncMsg.Segments`: `{Hash, Data}`. -/
structure Segment where
  Hash : Bytes
  Data : Bytes
deriving DecidableEq, Repr

/-- One commitment entry of a proof record: `{TypeUrl, Commitment, SegmentHashes}`. -/
structure CommitmentEntry where
  TypeUrl : String
  Commitment : Bytes
  SegmentHashes : List Bytes
deriving DecidableEq, Repr

/-- `protobufs.InclusionProofsMap`: `{FrameCommit, Proof, Commitments}`. -/
structure InclusionProofsMap where
  FrameCommit : Bytes
  Proof : Bytes
  Commitments : List CommitmentEntry
deriving DecidableEq, Repr

/-- `protobufs.InclusionCommitment`; `Position` is a `uint32`. -/
structure InclusionCommitment where
  Filter : Bytes
  FrameNumber : Nat
  Position : Nat
  TypeUrl : String
  Data : Bytes
  Commitment : Bytes
deriving DecidableEq, Repr

/-- `protobufs.InclusionAggregateProof`. -/
structure InclusionAggregateProof where
  Filter : Bytes
  FrameNumber : Nat
  InclusionCommitments : List InclusionCommitment
  Proof : Bytes
deriving DecidableEq, Repr

/-- `protobufs.IntrinsicExecutionOutput`: `{Address, Output, Proof}`. -/
structure IntrinsicExecutionOutput where
  Address : Bytes
  Output : Bytes
  Proof : Bytes
deriving DecidableEq, Repr

/-- `protobufs.ClockFrame`, restricted to the fields this file reads or
writes: `FrameNumber`, `Input` and `AggregateProofs`. -/
structure ClockFrame where
  FrameNumber : Nat
  Input : Bytes
  AggregateProofs : List InclusionAggregateProof
deriving DecidableEq, Repr

/-- `protobufs.CeremonyCompressedSync`. -/
structure CeremonyCompressedSync where
  FromFrameNumber : Nat
  ToFrameNumber : Nat
  TruncatedClockFrames : List ClockFrame
  Proofs : List InclusionProofsMap
  Segments : List Segment
deriving DecidableEq, Repr

/-- The fields of `CeremonyDataClockConsensusEngine` that the file reads:
`e.filter`, `e.syncingTarget`, `e.frame` and `e.pubSub.GetPeerID()`. -/
structure Engine where
  filter : Bytes
  syncingTarget : Bytes
  frame : Nat
  peerID : Bytes
deriving DecidableEq, Repr

/-- One call `e.handleClockFrameData(peer, address, any, historical)`, with
`any = &anypb.Any{TypeUrl: typeUrl, Value: value}`. -/
structure IngestCall where
  peer : Bytes
  address : Bytes
  typeUrl : String
  value : Bytes
  historical : Bool
deriving DecidableEq, Repr

/-- What `decompressAndStoreCandidates` uses and this file does not define:
the type-URL constants, `application.CEREMONY_ADDRESS`, `proto.Marshal` on
the two message types, and the ingestion entry point
`handleClockFrameData`, whose answer may depend on the calls made before. -/
structure Collaborators where
  IntrinsicExecutionOutputType : String
  ClockFrameType : String
  CEREMONY_ADDRESS : Bytes
  marshalOutput : IntrinsicExecutionOutput → Except GoError Bytes
  marshalFrame : ClockFrame → Except GoError Bytes
  handleClockFrameData : List IngestCall → IngestCall → Option GoError

/-- The text every error of `decompressAndStoreCandidates` is wrapped with. -/
def decompressMsg : String := "decompress and store candidates"

/-- Go slice expression `s[lo:hi]` on a slice whose capacity is its length:
`none` is the run-time panic for bounds out of range. -/
def goSlice (s : Bytes) (lo hi : Nat) : Option Bytes :=
  if lo ≤ hi ∧ hi ≤ s.length then some ((s.take hi).drop lo) else none

/-- `commits := (len(frame.Input) - 516) / 74` on Go `int`: the division
truncates toward zero. -/
def commitCount (input : Bytes) : Int :=
  Int.tdiv ((input.length : Int) - 516) 74

/-- The search `for _, a := range syncMsg.Proofs` of lines 169-179: the first
record whose `FrameCommit` equals the commit, or nil. -/
def findProof (commit : Bytes) : List InclusionProofsMap → Option InclusionProofsMap
  | [] => none
  | a :: rest => if a.FrameCommit = commit then some a else findProof commit rest

/-- The inner loop `for _, s := range syncMsg.Segments` of lines 220-261 for
the hash `h` at index `l`, threading `output` (nil unless the entry has the
intrinsic-execution-output type) and `incCommit.Data`.  For `l = 0` with
`output` set there is no `break`, and `s.Data[32:]` faults on a short
segment; the two other matching branches end the loop. -/
def segmentLoop (marshal : IntrinsicExecutionOutput → Except GoError Bytes)
    (l : Nat) (h : Bytes) :
    List Segment → Option IntrinsicExecutionOutput → Bytes →
      Outcome (Option IntrinsicExecutionOutput × Bytes)
  | [], output, data => .ok (output, data)
  | s :: rest, output, data =>
    if s.Hash = h then
      match output with
      | some out =>
        if l = 0 then
          if s.Data.length < 32 then .panicked
          else
            segmentLoop marshal l h rest
              (some { out with Address := s.Data.take 32, Output := s.Data.drop 32 }) data
        else
          match marshal { out with Proof := s.Data } with
          | .error err => .error (.wrap err decompressMsg)
          | .ok b => .ok (some { out with Proof := s.Data }, b)
      | none => .ok (none, data ++ s.Data)
    else segmentLoop marshal l h rest output data

/-- The loop `for l, h := range c.SegmentHashes` of lines 219-262. -/
def hashLoop (marshal : IntrinsicExecutionOutput → Except GoError Bytes)
    (segments : List Segment) :
    Nat → List Bytes → Option IntrinsicExecutionOutput → Bytes → Outcome Bytes
  | _, [], _, data => .ok data
  | l, h :: hs, output, data =>
    match segmentLoop marshal l h segments output data with
    | .ok (output', data') => hashLoop marshal segments (l + 1) hs output' data'
    | .error err => .error err
    | .panicked => .panicked

/-- Lines 207-262 for the commitment entry `c` at index `k`: the
`InclusionCommitment` that is appended to `inc.InclusionCommitments`. -/
def buildCommitment (e : Engine) (x : Collaborators) (segments : List Segment)
    (frameNumber : Nat) (k : Nat) (c : CommitmentEntry) : Outcome InclusionCommitment :=
  let output : Option IntrinsicExecutionOutput :=
    if c.TypeUrl = x.IntrinsicExecutionOutputType then some ⟨[], [], []⟩ else none
  match hashLoop x.marshalOutput segments 0 c.SegmentHashes output [] with
  | .ok data =>
    .ok { Filter := e.filter, FrameNumber := frameNumber, Position := k % 2 ^ 32,
          TypeUrl := c.TypeUrl, Data := data, Commitment := c.Commitment }
  | .error err => .error err
  | .panicked => .panicked

/-- The loop `for k, c := range aggregateProof.Commitments` of lines 199-267. -/
def commitmentsLoop (e : Engine) (x : Collaborators) (segments : List Segment)
    (frameNumber : Nat) :
    Nat → List CommitmentEntry → List InclusionCommitment →
      Outcome (List InclusionCommitment)
  | _, [], acc => .ok acc
  | k, c :: cs, acc =>
    match buildCommitment e x segments frameNumber k c with
    | .ok incCommit => commitmentsLoop e x segments frameNumber (k + 1) cs (acc ++ [incCommit])
    | .error err => .error err
    | .panicked => .panicked

/-- The body of the loop over `j` (lines 162-268): slice the `j`-th commit
record, find its proof record, build the aggregate proof.  When no record
matches, the arguments of the error log are evaluated first and
`aggregateProof.Proof` dereferences the nil pointer, so the `return` of
`store.ErrInvalidData` on line 187 is not reached. -/
def processCommit (e : Engine) (x : Collaborators) (sync : CeremonyCompressedSync)
    (frame : ClockFrame) (j : Nat) : Outcome InclusionAggregateProof :=
  match goSlice frame.Input (516 + j * 74) (516 + (j + 1) * 74) with
  | none => .panicked
  | some commit =>
    match findProof commit sync.Proofs with
    | none => .panicked
    | some aggregateProof =>
      match commitmentsLoop e x sync.Segments frame.FrameNumber 0
          aggregateProof.Commitments [] with
      | .ok incs =>
        .ok { Filter := e.filter, FrameNumber := frame.FrameNumber,
              InclusionCommitments := incs, Proof := aggregateProof.Proof }
      | .error err => .error err
      | .panicked => .panicked

/-- The loop `for j := 0; j < commits; j++` with `n` iterations left,
appending each aggregate proof to `frame.AggregateProofs`. -/
def commitLoop (e : Engine) (x : Collaborators) (sync : CeremonyCompressedSync) :
    Nat → Nat → ClockFrame → Outcome ClockFrame
  | 0, _, frame => .ok frame
  | n + 1, j, frame =>
    match processCommit e x sync frame j with
    | .ok inc =>
      commitLoop e x sync n (j + 1)
        { frame with AggregateProofs := frame.AggregateProofs ++ [inc] }
    | .error err => .error err
    | .panicked => .panicked

/-- Lines 155-273 for one truncated frame: the frame with its aggregate
proofs rebuilt.  `j < commits` holds for `commits.toNat` values of `j`. -/
def reconstructFrame (e : Engine) (x : Collaborators) (sync : CeremonyCompressedSync)
    (frame : ClockFrame) : Outcome ClockFrame :=
  commitLoop e x sync (commitCount frame.Input).toNat 0 frame

/-- The call record of lines 280-289 for the marshalled frame `f`. -/
def ingestCallOf (e : Engine) (x : Collaborators) (f : Bytes) : IngestCall :=
  { peer := e.syncingTarget, address := x.CEREMONY_ADDRESS, typeUrl := x.ClockFrameType,
    value := f, historical := true }

/-- The loop `for _, frame := range syncMsg.TruncatedClockFrames` of lines
154-292, with the calls of `handleClockFrameData` made so far. -/
def frameLoop (e : Engine) (x : Collaborators) (sync : CeremonyCompressedSync) :
    List ClockFrame → List IngestCall → Outcome Unit × List IngestCall
  | [], calls => (.ok (), calls)
  | frame :: rest, calls =>
    match reconstructFrame e x sync frame with
    | .ok full =>
      match x.marshalFrame full with
      | .error err => (.error (.wrap err decompressMsg), calls)
      | .ok f =>
        match x.handleClockFrameData calls (ingestCallOf e x f) with
        | some err => (.error (.wrap err decompressMsg), calls ++ [ingestCallOf e x f])
        | none => frameLoop e x sync rest (calls ++ [ingestCallOf e x f])
    | .error err => (.error err, calls)
    | .panicked => (.panicked, calls)

/-- The method `decompressAndStoreCandidates(syncMsg)`: how the call ends, and
the calls of `handleClockFrameData` it made, in order. -/
def decompressAndStoreCandidates (e : Engine) (x : Collaborators)
    (sync : CeremonyCompressedSync) : Outcome Unit × List IngestCall :=
  frameLoop e x sync sync.TruncatedClockFrames []

/-! ## Frame sync server -/

/-- The modulus of `uint64` arithmetic. -/
def U64 : Nat := 2 ^ 64

/-- Go `a + b` on `uint64`. -/
def addU64 (a b : Nat) : Nat := (a + b) % U64

/-- Go `a - b` on `uint64` (for `b < 2^64`). -/
def subU64 (a b : Nat) : Nat := (a + U64 - b) % U64

/-- `protobufs.ClockFramesRequest`. -/
structure ClockFramesRequest where
  Filter : Bytes
  FromFrameNumber : Nat
  ToFrameNumber : Nat
deriving DecidableEq, Repr

/-- What `server.SendMsg` is given: the `ClockFramesResponse` built on lines
97-102, or the compressed sync message the clock store returned. -/
inductive SyncMessage where
  | response (Filter : Bytes) (FromFrameNumber ToFrameNumber : Nat)
      (ClockFrames : List ClockFrame)
  | compressed (syncMsg : CeremonyCompressedSync)
deriving DecidableEq, Repr

/-- The collaborator calls of `GetCompressedSyncFrames` after the first
lookup: `GetCompressedDataClockFrames(filter, from, to)` and `SendMsg(msg)`. -/
inductive SyncEvent where
  | fetch (filter : Bytes) (from_ to_ : Nat)
  | send (msg : SyncMessage)
deriving DecidableEq, Repr

/-- The clock store and the stream of `GetCompressedSyncFrames`; the error
of `GetDataClockFrame` is all that is used of its result, and the answers to
the later calls may depend on the calls made before. -/
structure SyncCollaborators where
  getDataClockFrame : Bytes → Nat → Option GoError
  getCompressedDataClockFrames :
    List SyncEvent → Bytes → Nat → Nat → Except GoError CeremonyCompressedSync
  sendMsg : List SyncEvent → SyncMessage → Option GoError

/-- The text every error of `GetCompressedSyncFrames` is wrapped with. -/
def syncMsgText : String := "get compressed sync frames"

/-- Lines 115-121: the end of the window that starts at `from_`. -/
def windowEnd (max from_ to_ : Nat) : Nat :=
  if to_ = 0 ∨ subU64 to_ from_ > 32 then
    if max > addU64 from_ 31 then addU64 from_ 31 else max
  else to_

/-- The `for` loop of lines 114-146 from the state `(from, to)`, with `fuel`
bounding the number of iterations: `none` when the bound is reached,
otherwise the returned error (nil or not) and the trace. -/
def syncLoop (e : Engine) (x : SyncCollaborators) (reqTo max : Nat) :
    Nat → Nat → Nat → List SyncEvent → Option (Option GoError × List SyncEvent)
  | 0, _, _, _ => none
  | fuel + 1, from_, to_, trace =>
    let to1 := windowEnd max from_ to_
    let trace1 := trace ++ [SyncEvent.fetch e.filter from_ to1]
    match x.getCompressedDataClockFrames trace e.filter from_ to1 with
    | .error err => some (some (.wrap err syncMsgText), trace1)
    | .ok syncMsg =>
      let trace2 := trace1 ++ [SyncEvent.send (.compressed syncMsg)]
      match x.sendMsg trace1 (.compressed syncMsg) with
      | some err => some (some (.wrap err syncMsgText), trace2)
      | none =>
        if (reqTo = 0 ∨ reqTo > to1) ∧ max > to1 then
          syncLoop e x reqTo max fuel (addU64 to1 1) (if reqTo > to1 then reqTo else 0) trace2
        else some (none, trace2)

/-- The method `GetCompressedSyncFrames(request, server)`, the loop bounded by
`fuel` iterations. -/
def GetCompressedSyncFrames (e : Engine) (x : SyncCollaborators)
    (request : ClockFramesRequest) (fuel : Nat) :
    Option (Option GoError × List SyncEvent) :=
  match x.getDataClockFrame request.Filter request.FromFrameNumber with
  | some err =>
    if !errorsIs err .ErrNotFound then some (some (.wrap err syncMsgText), [])
    else
      match x.sendMsg [] (.response request.Filter 0 0 []) with
      | some err1 =>
        some (some (.wrap err1 syncMsgText), [SyncEvent.send (.response request.Filter 0 0 [])])
      | none => some (none, [SyncEvent.send (.response request.Filter 0 0 [])])
  | none =>
    syncLoop e x request.ToFrameNumber e.frame fuel
      request.FromFrameNumber request.ToFrameNumber []

/-- The windows `[from, to]` asked of the clock store, in order. -/
def fetchedWindows : List SyncEvent → List (Nat × Nat)
  | [] => []
  | .fetch _ from_ to_ :: rest => (from_, to_) :: fetchedWindows rest
  | .send _ :: rest => fetchedWindows rest

/-- The number of frames of the window `[from, to]`. -/
def windowSize (w : Nat × Nat) : Nat := w.2 + 1 - w.1

/-! ## Proving-key requests -/

/-- An `anypb.Any`. -/
structure AnyMsg where
  TypeUrl : String
  Value : Bytes
deriving DecidableEq, Repr

/-- `protobufs.ProvingKeyRequest`. -/
structure ProvingKeyRequest where
  ProvingKeyBytes : Bytes
deriving DecidableEq, Repr

/-- `protobufs.ProvingKeyAnnouncement`; its fields are not read here. -/
structure ProvingKeyAnnouncement where
  content : Bytes
deriving DecidableEq, Repr

/-- The collaborator calls of `handleProvingKeyRequest`.  The message of a
`publish` is a `*ProvingKeyAnnouncement`, which may be nil. -/
inductive KeyEvent where
  | subscribe (topic : Bytes) (raw : Bool)
  | getProvingKey (key : Bytes)
  | getStagedProvingKey (key : Bytes)
  | publish (topic : Bytes) (msg : Option ProvingKeyAnnouncement)
deriving DecidableEq, Repr

/-- What `handleProvingKeyRequest` calls: `any.UnmarshalTo(request)`, the two
key store lookups (each a value and an error), `proto.Unmarshal` of the
committed record into the nil `provingKey`, and `publishMessage`. -/
structure KeyCollaborators where
  unmarshalRequest : AnyMsg → Except GoError ProvingKeyRequest
  getProvingKey : Bytes → Except GoError InclusionCommitment
  getStagedProvingKey : Bytes → Option ProvingKeyAnnouncement × Option GoError
  unmarshalAnnouncement : Bytes → Outcome Unit
  publishMessage : Bytes → Option ProvingKeyAnnouncement → Option GoError

/-- `errors.Is(err, target)` for an `err` that may be nil. -/
def errorsIsOpt (err : Option GoError) (target : GoError) : Bool :=
  match err with
  | none => false
  | some err1 => errorsIs err1 target

/-- Lines 470-477: publish onto `filter ++ peerID`; a failure is dropped. -/
def publishAnnouncement (e : Engine) (x : KeyCollaborators) (peerID : Bytes)
    (provingKey : Option ProvingKeyAnnouncement) (trace : List KeyEvent) :
    Outcome Unit × List KeyEvent :=
  match x.publishMessage (e.filter ++ peerID) provingKey with
  | some _ => (.ok (), trace ++ [KeyEvent.publish (e.filter ++ peerID) provingKey])
  | none => (.ok (), trace ++ [KeyEvent.publish (e.filter ++ peerID) provingKey])

/-- The method `handleProvingKeyRequest(peerID, address, any)`: how the call
ends and the collaborator calls it made.  The variable `provingKey` starts
nil and is only assigned by the staged lookup. -/
def handleProvingKeyRequest (e : Engine) (x : KeyCollaborators)
    (peerID _address : Bytes) (any : AnyMsg) : Outcome Unit × List KeyEvent :=
  if peerID = e.peerID then (.ok (), [])
  else
    match x.unmarshalRequest any with
    | .error _ => (.ok (), [])
    | .ok request =>
      if request.ProvingKeyBytes.length = 0 then (.ok (), [])
      else
        let trace1 := [KeyEvent.subscribe (e.filter ++ peerID) true,
                       KeyEvent.getProvingKey request.ProvingKeyBytes]
        match x.getProvingKey request.ProvingKeyBytes with
        | .error err =>
          if !errorsIs err .ErrNotFound then (.ok (), trace1)
          else
            let trace2 := trace1 ++ [KeyEvent.getStagedProvingKey request.ProvingKeyBytes]
            let staged := x.getStagedProvingKey request.ProvingKeyBytes
            if !errorsIsOpt staged.2 .ErrNotFound then (.ok (), trace2)
            else if staged.2 ≠ none then (.ok (), trace2)
            else publishAnnouncement e x peerID staged.1 trace2
        | .ok inclusion =>
          match x.unmarshalAnnouncement inclusion.Data with
          | .error _ => (.ok (), trace1)
          | .panicked => (.panicked, trace1)
          | .ok _ => publishAnnouncement e x peerID none trace1

/-! ## Vocabulary of the statements and sample values -/

/-- The `j`-th commit record of `Input`: the bytes from `516 + 74 j` up to
`516 + 74 (j + 1)`. -/
def commitRecord (input : Bytes) (j : Nat) : Bytes :=
  (input.take (516 + (j + 1) * 74)).drop (516 + j * 74)

/-- Some commit record of the frame equals the `FrameCommit` of no record of
`syncMsg.Proofs`. -/
def hasUnresolvedCommit (sync : CeremonyCompressedSync) (frame : ClockFrame) : Prop :=
  ∃ j : Nat, (j : Int) < commitCount frame.Input ∧
    ∀ a ∈ sync.Proofs, a.FrameCommit ≠ commitRecord frame.Input j

/-- An engine with filter `[1, 2]`, syncing target `[3]`, current frame 100
and peer id `[9]`. -/
def sampleEngine : Engine :=
  { filter := [1, 2], syncingTarget := [3], frame := 100, peerID := [9] }

/-- Collaborators that never fail: marshalling lists the fields one after
the other, and ingestion accepts every frame. -/
def sampleCollaborators : Collaborators :=
  { IntrinsicExecutionOutputType := "IEO", ClockFrameType := "CF", CEREMONY_ADDRESS := [7],
    marshalOutput := fun o => .ok (o.Address ++ [256] ++ o.Output ++ [256] ++ o.Proof),
    marshalFrame := fun f => .ok [f.FrameNumber, f.Input.length, f.AggregateProofs.length],
    handleClockFrameData := fun _ _ => none }

/-- A 516-byte header. -/
def sampleHeader : Bytes := List.replicate 516 0

/-- A 74-byte commit record. -/
def sampleCommit : Bytes := List.replicate 74 1

/-- A payload of two frames without proof records: frame 5 has no commit
record, frame 6 has one, which therefore resolves to nothing. -/
def syncSecondFrameUnresolved : CeremonyCompressedSync :=
  { FromFrameNumber := 5, ToFrameNumber := 6,
    TruncatedClockFrames := [⟨5, sampleHeader, []⟩, ⟨6, sampleHeader ++ sampleCommit, []⟩],
    Proofs := [], Segments := [] }

/-- A payload of one frame with one commit record and no proof record. -/
def syncUnresolved : CeremonyCompressedSync :=
  { FromFrameNumber := 6, ToFrameNumber := 6,
    TruncatedClockFrames := [⟨6, sampleHeader ++ sampleCommit, []⟩],
    Proofs := [], Segments := [] }

/-- A clock store that has every frame and a stream that never fails. -/
def sampleSyncCollaborators : SyncCollaborators :=
  { getDataClockFrame := fun _ _ => none,
    getCompressedDataClockFrames := fun _ _ from_ to_ => .ok ⟨from_, to_, [], [], []⟩,
    sendMsg := fun _ _ => none }

/-- The upper end of the range a request asks for: the server's current
frame `max` when `ToFrameNumber` is unset (0), `ToFrameNumber` otherwise. -/
def effectiveTo (reqTo max : Nat) : Nat := if reqTo = 0 then max else reqTo

/-- The windows `ws` tile the range `[a, b]`: there is at least one, the
first starts at `a`, none is empty, each next one starts right after the
end of the one before, and the last ends at `b`. -/
def TilesRange (a b : Nat) (ws : List (Nat × Nat)) : Prop :=
  ws ≠ [] ∧ ws.head?.map Prod.fst = some a ∧ (∀ w ∈ ws, w.1 ≤ w.2) ∧
    List.Chain' (fun w v => v.1 = w.2 + 1) ws ∧ ws.getLast?.map Prod.snd = some b

/-- The segments of the payload whose `Hash` is `h`, in payload order. -/
def segmentsWithHash (segments : List Segment) (h : Bytes) : List Segment :=
  segments.filter (fun s => decide (s.Hash = h))

/-- The first segment of the payload, in payload order, whose `Hash` is `h`. -/
def firstSegment (segments : List Segment) (h : Bytes) : Option Segment :=
  segments.find? (fun s => decide (s.Hash = h))

/-- The `Data` of the first segment whose `Hash` is `h`; no bytes when no
segment carries `h`. -/
def firstSegmentData (segments : List Segment) (h : Bytes) : Bytes :=
  match firstSegment segments h with
  | some s => s.Data
  | none => []

/-- A key store in which key `[5]` is not committed (`ErrNotFound`) and is
staged with the announcement `⟨[42]⟩`; requests decode to their `Value`, and
publishing succeeds. -/
def sampleKeyCollaborators : KeyCollaborators :=
  { unmarshalRequest := fun any => .ok ⟨any.Value⟩,
    getProvingKey := fun _ => .error .ErrNotFound,
    getStagedProvingKey := fun _ => (some ⟨[42]⟩, none),
    unmarshalAnnouncement := fun _ => .ok (),
    publishMessage := fun _ _ => none }

/-- A 40-byte segment with hash `[11]`. -/
def sampleLongSegment : Segment := ⟨[11], List.replicate 40 1⟩

/-- A 33-byte segment with hash `[11]`, a segment `[5, 5]` with hash `[12]`. -/
def sampleHalves : List Segment := [⟨[11], List.replicate 33 1⟩, ⟨[12], [5, 5]⟩]

/-- Three segments, two of them with hash `[11]`. -/
def sampleSegments : List Segment := [⟨[11], [97]⟩, ⟨[12], [98]⟩, ⟨[11], [99]⟩]

/-- The inclusion commitment `ic` is the one rebuilt for the entry `c` at
index `i`: it has `Position = i` (as a `uint32`), the entry's `TypeUrl` and
`Commitment`, and is what `buildCommitment` returns for `c`. -/
def CommitmentRebuilt (e : Engine) (x : Collaborators) (sync : CeremonyCompressedSync)
    (frame : ClockFrame) (i : Nat) (c : CommitmentEntry) (ic : InclusionCommitment) : Prop :=
  ic.Position = i % 2 ^ 32 ∧ (i < 2 ^ 32 → ic.Position = i) ∧ ic.TypeUrl = c.TypeUrl ∧
    ic.Commitment = c.Commitment ∧
    buildCommitment e x sync.Segments frame.FrameNumber i c = .ok ic

/-- The aggregate proof `agg` is the one rebuilt for the `j`-th commit record
of `frame`: it carries the engine filter, the frame number and the `Proof` of
the first proof record `a` whose `FrameCommit` is the `j`-th commit record,
and one inclusion commitment per entry of `a.Commitments`, in order. -/
def AggregateRebuilt (e : Engine) (x : Collaborators) (sync : CeremonyCompressedSync)
    (frame : ClockFrame) (j : Nat) (agg : InclusionAggregateProof) : Prop :=
  ∃ a, sync.Proofs.find? (fun r => decide (r.FrameCommit = commitRecord frame.Input j))
      = some a ∧
    agg.Filter = e.filter ∧ agg.FrameNumber = frame.FrameNumber ∧ agg.Proof = a.Proof ∧
    agg.InclusionCommitments.length = a.Commitments.length ∧
    ∀ i c, a.Commitments[i]? = some c →
      ∃ ic, agg.InclusionCommitments[i]? = some ic ∧ CommitmentRebuilt e x sync frame i c ic

/-- Every commitment entry of the proof records that the commit records of
`frame` resolve to can be rebuilt (no short first half, no failing
serialization). -/
def CommitmentsRebuildable (e : Engine) (x : Collaborators) (sync : CeremonyCompressedSync)
    (frame : ClockFrame) : Prop :=
  ∀ j, j < (frame.Input.length - 516) / 74 →
    ∀ a, sync.Proofs.find? (fun r => decide (r.FrameCommit = commitRecord frame.Input j))
        = some a →
      ∀ i c, a.Commitments[i]? = some c →
        ∃ ic, buildCommitment e x sync.Segments frame.FrameNumber i c = .ok ic

/-- The `Input` breaks the layout "516-byte header, then whole 74-byte commit
records". -/
def violatesInputLayout (input : Bytes) : Prop :=
  input.length < 516 ∨ (input.length - 516) % 74 ≠ 0

/-- The payload of the concrete scenario: one frame with the header and the
commit `sampleCommit`, one proof record for it with one entry of type `"X"`
and hash `[11]`, one segment with hash `[11]` and data `"abcdef"`. -/
def syncScenario : CeremonyCompressedSync :=
  { FromFrameNumber := 5, ToFrameNumber := 5,
    TruncatedClockFrames := [⟨5, sampleHeader ++ sampleCommit, []⟩],
    Proofs := [⟨sampleCommit, [4], [⟨"X", [8], [[11]]⟩]⟩],
    Segments := [⟨[11], [97, 98, 99, 100, 101, 102]⟩] }

/-- A payload of two frames that break the layout: frame 7 has an empty
`Input`, frame 8 has one byte after the header. -/
def syncMalformed : CeremonyCompressedSync :=
  { FromFrameNumber := 7, ToFrameNumber := 8,
    TruncatedClockFrames := [⟨7, [], []⟩, ⟨8, sampleHeader ++ [9], []⟩],
    Proofs := [], Segments := [] }

/-- A payload of two frames that break the layout, with a proof record and a
segment: frame 7 has an empty `Input`, frame 8 has the header, the commit
record `sampleCommit` and one stray byte after it. -/
def syncMalformedWithRecord : CeremonyCompressedSync :=
  { FromFrameNumber := 7, ToFrameNumber := 8,
    TruncatedClockFrames := [⟨7, [], []⟩, ⟨8, sampleHeader ++ sampleCommit ++ [9], []⟩],
    Proofs := [⟨sampleCommit, [4], [⟨"X", [8], [[11]]⟩]⟩],
    Segments := [⟨[11], [97, 98, 99, 100, 101, 102]⟩] }

/-! ## Gossip dispatch -/

/-- The `pb.Message` handed to `handleSync`: `{Data, From, Signature}`. -/
structure GossipMessage where
  Data : Bytes
  From : Bytes
  Signature : Bytes
deriving DecidableEq, Repr

/-- The `protobufs.Message` envelope, restricted to the fields that
`handleSync` reads: `Address` and `Payload`. -/
structure Envelope where
  Address : Bytes
  Payload : Bytes
deriving DecidableEq, Repr

/-- The handler calls of `handleSync`, with their arguments. -/
inductive HandlerCall where
  | handleProvingKey (peerID address : Bytes) (any : AnyMsg)
  | handleKeyBundle (peerID address : Bytes) (any : AnyMsg)
deriving DecidableEq, Repr

/-- What `handleSync` uses and this file does not define: the two type-URL
constants, `proto.Unmarshal` into the envelope and into the `anypb.Any`, and
the two handlers. -/
structure GossipCollaborators where
  ProvingKeyAnnouncementType : String
  KeyBundleAnnouncementType : String
  unmarshalMessage : Bytes → Except GoError Envelope
  unmarshalAny : Bytes → Except GoError AnyMsg
  handleProvingKey : Bytes → Bytes → AnyMsg → Option GoError
  handleKeyBundle : Bytes → Bytes → AnyMsg → Option GoError

/-- The text every error of `handleSync` is wrapped with. -/
def handleSyncText : String := "handle sync"

/-- The method `handleSync(message)`: the returned error (nil or not) and the
handler calls it made.  The `switch` on `any.TypeUrl` tries the proving-key
case first. -/
def handleSync (e : Engine) (x : GossipCollaborators) (message : GossipMessage) :
    Option GoError × List HandlerCall :=
  if message.From = e.peerID then (none, [])
  else
    match x.unmarshalMessage message.Data with
    | .error err => (some (.wrap err handleSyncText), [])
    | .ok msg =>
      match x.unmarshalAny msg.Payload with
      | .error err => (some (.wrap err handleSyncText), [])
      | .ok any =>
        if any.TypeUrl = x.ProvingKeyAnnouncementType then
          match x.handleProvingKey message.From msg.Address any with
          | some err =>
            (some (.wrap err handleSyncText),
              [HandlerCall.handleProvingKey message.From msg.Address any])
          | none => (none, [HandlerCall.handleProvingKey message.From msg.Address any])
        else if any.TypeUrl = x.KeyBundleAnnouncementType then
          match x.handleKeyBundle message.From msg.Address any with
          | some err =>
            (some (.wrap err handleSyncText),
              [HandlerCall.handleKeyBundle message.From msg.Address any])
          | none => (none, [HandlerCall.handleKeyBundle message.From msg.Address any])
        else (none, [])

/-! ## Direct channels -/

/-- How the `select` of lines 355-363 ends: a value arrives on `svrChan` (the
stream of the first connection, or nil when the listener could not be
started), or the 20-second timer fires first. -/
inductive Rendezvous where
  | received (stream : Option Nat)
  | timedOut
deriving DecidableEq, Repr

/-- The substrate calls of `GetPublicChannelForProvingKey`: starting the
listener, dialling the direct channel, opening the stream on a connection
with the two message size limits. -/
inductive ChannelEvent where
  | startListener (provingKey : Bytes) (maxSend maxRecv : Nat)
  | dial (provingKey : Bytes)
  | openStream (conn : Nat) (maxSend maxRecv : Nat)
deriving DecidableEq, Repr

/-- The pubsub substrate and the gRPC client behind
`GetPublicChannelForProvingKey`; connections and streams are handles.  The
goroutine and the timer of the initiator role are not modelled, only the
way their race ends (`rendezvous`). -/
structure ChannelCollaborators where
  rendezvous : Bytes → Rendezvous
  getDirectChannel : Bytes → Except GoError Nat
  getPublicChannel : Nat → Nat → Nat → Option Nat × Option GoError

/-- The message size limit `400*1024*1024` of both directions. -/
def maxMsgSize : Nat := 400 * 1024 * 1024

/-- The text every error of `GetPublicChannelForProvingKey` is wrapped with. -/
def channelText : String := "get public channel for proving key"

/-- The function `errors.Wrap(err, msg)` on an `err` that may be nil: nil
stays nil. -/
def wrapOpt (err : Option GoError) (msg : String) : Option GoError :=
  match err with
  | none => none
  | some err1 => some (.wrap err1 msg)

/-- The method `GetPublicChannelForProvingKey(initiator, provingKey)`: the
returned channel (nil or a stream) and error, and the substrate calls made. -/
def GetPublicChannelForProvingKey (x : ChannelCollaborators) (initiator : Bool)
    (provingKey : Bytes) : (Option Nat × Option GoError) × List ChannelEvent :=
  if initiator then
    match x.rendezvous provingKey with
    | .received s => ((s, none), [ChannelEvent.startListener provingKey maxMsgSize maxMsgSize])
    | .timedOut =>
      ((none, some (.wrap (.other 0) channelText)),
        [ChannelEvent.startListener provingKey maxMsgSize maxMsgSize])
  else
    match x.getDirectChannel provingKey with
    | .error _ => ((none, none), [ChannelEvent.dial provingKey])
    | .ok cc =>
      let r := x.getPublicChannel cc maxMsgSize maxMsgSize
      ((r.1, wrapOpt r.2 channelText),
        [ChannelEvent.dial provingKey, ChannelEvent.openStream cc maxMsgSize maxMsgSize])

/-! ## Further sample values -/

/-- A payload whose only frame has one commit record, resolved by a proof
record with one entry of the intrinsic-execution-output type; the entry's
first hash `[11]` is carried by a segment of three bytes. -/
def syncShortFirstHalf : CeremonyCompressedSync :=
  { FromFrameNumber := 5, ToFrameNumber := 5,
    TruncatedClockFrames := [⟨5, sampleHeader ++ sampleCommit, []⟩],
    Proofs := [⟨sampleCommit, [4], [⟨"IEO", [8], [[11], [12]]⟩]⟩],
    Segments := [⟨[11], [1, 2, 3]⟩, ⟨[12], [5, 5]⟩] }

/-- Two 33-byte segments with the same hash `[11]` (bytes 1, then bytes 2),
and a segment `[5, 5]` with hash `[12]`. -/
def sampleDuplicateHalves : List Segment :=
  [⟨[11], List.replicate 33 1⟩, ⟨[11], List.replicate 33 2⟩, ⟨[12], [5, 5]⟩]

/-- A clock store that has no frame at all (`ErrNotFound`), behind a stream
that never fails. -/
def sampleEmptyStore : SyncCollaborators :=
  { getDataClockFrame := fun _ _ => some .ErrNotFound,
    getCompressedDataClockFrames := fun _ _ from_ to_ => .ok ⟨from_, to_, [], [], []⟩,
    sendMsg := fun _ _ => none }

/-- Gossip collaborators whose decoders read the address and the type tag
off the first byte and whose handlers never fail. -/
def sampleGossipCollaborators : GossipCollaborators :=
  { ProvingKeyAnnouncementType := "PKA", KeyBundleAnnouncementType := "KBA",
    unmarshalMessage := fun data => .ok ⟨[7], data⟩,
    unmarshalAny := fun payload =>
      .ok ⟨if payload.head? = some 1 then "PKA" else if payload.head? = some 2 then "KBA"
        else "other", payload⟩,
    handleProvingKey := fun _ _ _ => none,
    handleKeyBundle := fun _ _ _ => none }

/-- A substrate on which no direct channel can be dialled. -/
def sampleChannelCollaborators : ChannelCollaborators :=
  { rendezvous := fun _ => .timedOut,
    getDirectChannel := fun _ => .error (.other 1),
    getPublicChannel := fun cc _ _ => (some cc, none) }

/-- The trace of a run that, for each window of `steps` in turn, fetched the
window from the clock store and sent the message paired with it:
`fetch`, `send`, `fetch`, `send`, ... -/
def streamedTrace (filter : Bytes) :
    List ((Nat × Nat) × CeremonyCompressedSync) → List SyncEvent
  | [] => []
  | (w, m) :: rest =>
    SyncEvent.fetch filter w.1 w.2 :: SyncEvent.send (.compressed m) ::
      streamedTrace filter rest

/-- After the calls of `history`, each window of `steps` in turn is answered
by the clock store with the message paired with it, and the send of that
message on the stream succeeds. -/
def Streamed (e : Engine) (x : SyncCollaborators) :
    List SyncEvent → List ((Nat × Nat) × CeremonyCompressedSync) → Prop
  | _, [] => True
  | history, (w, m) :: rest =>
    x.getCompressedDataClockFrames history e.filter w.1 w.2 = .ok m ∧
      x.sendMsg (history ++ [SyncEvent.fetch e.filter w.1 w.2]) (.compressed m) = none ∧
      Streamed e x
        (history ++ [SyncEvent.fetch e.filter w.1 w.2, SyncEvent.send (.compressed m)]) rest

/-- The start of the last window of a pagination from `from_` that runs up
to `max` in steps of 32 frames: the largest `from_ + 32 k` not above `max`. -/
def lastCursor (from_ max : Nat) : Nat := from_ + 32 * ((max - from_) / 32)

/-! ## Lemmas on the reconstruction loops -/

theorem commitCount_toNat (input : Bytes) :
    (commitCount input).toNat = (input.length - 516) / 74 := by
  unfold commitCount
  by_cases h : 516 ≤ input.length
  · have h1 : (input.length : Int) - 516 = ((input.length - 516 : Nat) : Int) := by omega
    rw [h1]
    have h2 : Int.tdiv ((input.length - 516 : Nat) : Int) 74
        = (((input.length - 516) / 74 : Nat) : Int) := (Int.ofNat_tdiv _ 74).symm
    rw [h2, Int.toNat_ofNat]
  · have h1 : (input.length : Int) - 516 = -((516 - input.length : Nat) : Int) := by omega
    rw [h1, Int.neg_tdiv]
    have h2 : Int.tdiv ((516 - input.length : Nat) : Int) 74
        = (((516 - input.length) / 74 : Nat) : Int) := (Int.ofNat_tdiv _ 74).symm
    rw [h2]
    have h3 : input.length - 516 = 0 := by omega
    rw [h3]
    simp
    omega

theorem lt_commitCount_iff (input : Bytes) (j : Nat) :
    (j : Int) < commitCount input ↔ j < (input.length - 516) / 74 := by
  rw [← commitCount_toNat, Int.lt_toNat]

theorem goSlice_commitRecord (input : Bytes) (j : Nat)
    (hj : j < (input.length - 516) / 74) :
    goSlice input (516 + j * 74) (516 + (j + 1) * 74) = some (commitRecord input j) := by
  have h1 : 516 + j * 74 ≤ 516 + (j + 1) * 74 ∧ 516 + (j + 1) * 74 ≤ input.length := by
    omega
  simp [goSlice, commitRecord, h1]

theorem findProof_eq_none (commit : Bytes) (proofs : List InclusionProofsMap)
    (h : ∀ a ∈ proofs, a.FrameCommit ≠ commit) : findProof commit proofs = none := by
  induction proofs with
  | nil => rfl
  | cons a rest ih =>
    have ha : a.FrameCommit ≠ commit := h a (List.mem_cons_self _ _)
    have hrest : ∀ b ∈ rest, b.FrameCommit ≠ commit :=
      fun b hb => h b (List.mem_cons_of_mem _ hb)
    simp [findProof, ha, ih hrest]

theorem findProof_eq_find (commit : Bytes) (proofs : List InclusionProofsMap) :
    findProof commit proofs = proofs.find? (fun r => decide (r.FrameCommit = commit)) := by
  induction proofs with
  | nil => rfl
  | cons a rest ih =>
    by_cases ha : a.FrameCommit = commit
    · simp [findProof, ha]
    · simp [findProof, ha, ih]

theorem findProof_ne_none (commit : Bytes) (proofs : List InclusionProofsMap)
    (h : ∃ a ∈ proofs, a.FrameCommit = commit) : findProof commit proofs ≠ none := by
  obtain ⟨a, hmem, ha⟩ := h
  rw [findProof_eq_find]
  intro hnone
  rw [List.find?_eq_none] at hnone
  exact absurd (by simpa using ha) (hnone a hmem)

theorem processCommit_congr (e : Engine) (x : Collaborators) (sync : CeremonyCompressedSync)
    (f g : ClockFrame) (j : Nat) (hin : f.Input = g.Input)
    (hnum : f.FrameNumber = g.FrameNumber) :
    processCommit e x sync f j = processCommit e x sync g j := by
  unfold processCommit
  rw [hin, hnum]

theorem processCommit_unresolved (e : Engine) (x : Collaborators)
    (sync : CeremonyCompressedSync) (frame : ClockFrame) (j : Nat)
    (hj : j < (frame.Input.length - 516) / 74)
    (hun : ∀ a ∈ sync.Proofs, a.FrameCommit ≠ commitRecord frame.Input j) :
    processCommit e x sync frame j = .panicked := by
  unfold processCommit
  rw [goSlice_commitRecord _ _ hj]
  simp only []
  rw [findProof_eq_none _ _ hun]

theorem commitLoop_unresolved (e : Engine) (x : Collaborators)
    (sync : CeremonyCompressedSync) (input : Bytes) (j : Nat)
    (hj : j < (input.length - 516) / 74)
    (hun : ∀ a ∈ sync.Proofs, a.FrameCommit ≠ commitRecord input j) :
    ∀ (n j0 : Nat) (frame : ClockFrame), frame.Input = input → j0 ≤ j → j < j0 + n →
      ∀ full, commitLoop e x sync n j0 frame ≠ .ok full := by
  intro n
  induction n with
  | zero => intro j0 frame _ h1 h2; omega
  | succ n ih =>
    intro j0 frame hin h1 h2 full
    unfold commitLoop
    by_cases hjj : j0 = j
    · subst hjj
      subst hin
      rw [processCommit_unresolved e x sync frame j0 hj hun]
      simp
    · cases hp : processCommit e x sync frame j0 with
      | ok inc =>
        exact ih (j0 + 1) { frame with AggregateProofs := frame.AggregateProofs ++ [inc] }
          hin (by omega) (by omega) full
      | error err => simp
      | panicked => simp

theorem reconstructFrame_unresolved (e : Engine) (x : Collaborators)
    (sync : CeremonyCompressedSync) (frame : ClockFrame)
    (h : hasUnresolvedCommit sync frame) (full : ClockFrame) :
    reconstructFrame e x sync frame ≠ .ok full := by
  obtain ⟨j, hj, hun⟩ := h
  rw [lt_commitCount_iff] at hj
  unfold reconstructFrame
  rw [commitCount_toNat]
  exact commitLoop_unresolved e x sync frame.Input j hj hun _ 0 frame rfl (by omega)
    (by omega) full

theorem frameLoop_append (e : Engine) (x : Collaborators) (sync : CeremonyCompressedSync)
    (pre rest : List ClockFrame) :
    ∀ calls, frameLoop e x sync (pre ++ rest) calls =
      match frameLoop e x sync pre calls with
      | (.ok _, calls1) => frameLoop e x sync rest calls1
      | other => other := by
  induction pre with
  | nil => intro calls; simp [frameLoop]
  | cons frame pre ih =>
    intro calls
    simp only [List.cons_append, frameLoop]
    cases reconstructFrame e x sync frame with
    | ok full =>
      simp only []
      cases x.marshalFrame full with
      | error err => simp
      | ok f =>
        simp only []
        cases x.handleClockFrameData calls (ingestCallOf e x f) with
        | some err => simp
        | none => simp only []; exact ih _
    | error err => simp
    | panicked => simp

theorem frameLoop_calls_length (e : Engine) (x : Collaborators)
    (sync : CeremonyCompressedSync) (frames : List ClockFrame) :
    ∀ calls, (frameLoop e x sync frames calls).2.length ≤ calls.length + frames.length := by
  induction frames with
  | nil => intro calls; simp [frameLoop]
  | cons frame rest ih =>
    intro calls
    simp only [frameLoop]
    cases reconstructFrame e x sync frame with
    | ok full =>
      simp only []
      cases x.marshalFrame full with
      | error err => simp
      | ok f =>
        simp only []
        cases x.handleClockFrameData calls (ingestCallOf e x f) with
        | some err => simp
        | none =>
          simp only []
          have := ih (calls ++ [ingestCallOf e x f])
          simp only [List.length_append, List.length_cons, List.length_nil] at this ⊢
          omega
    | error err => simp
    | panicked => simp

theorem frameLoop_unresolved_head (e : Engine) (x : Collaborators)
    (sync : CeremonyCompressedSync) (bad : ClockFrame) (post : List ClockFrame)
    (h : hasUnresolvedCommit sync bad) (calls : List IngestCall) :
    (frameLoop e x sync (bad :: post) calls).1 ≠ .ok () ∧
      (frameLoop e x sync (bad :: post) calls).2 = calls := by
  simp only [frameLoop]
  cases hr : reconstructFrame e x sync bad with
  | ok full => exact absurd hr (reconstructFrame_unresolved e x sync bad h full)
  | error err => simp
  | panicked => simp

/-! ## Claims on `decompressAndStoreCandidates` and `GetCompressedSyncFrames` -/

set_option maxRecDepth 100000

/-- C1 (counterexample): in the payload `syncSecondFrameUnresolved` the second
frame has a commit record that no proof record carries, and yet
`handleClockFrameData` is invoked once, for the first frame. -/
theorem C1_counterexample_earlier_frame_ingested :
    (∃ frame ∈ syncSecondFrameUnresolved.TruncatedClockFrames,
        hasUnresolvedCommit syncSecondFrameUnresolved frame) ∧
      (decompressAndStoreCandidates sampleEngine sampleCollaborators
          syncSecondFrameUnresolved).2
        = [ingestCallOf sampleEngine sampleCollaborators [5, 516, 0]] := by
  refine ⟨⟨⟨6, sampleHeader ++ sampleCommit, []⟩, by decide, 0, by decide, ?_⟩, by decide⟩
  intro a ha
  simp [syncSecondFrameUnresolved] at ha

/-- C1 (amended): when a truncated frame `bad` of the payload has a commit
record that equals the `FrameCommit` of no proof record, the call does not
return nil, and neither `bad` nor any frame after it is handed to
`handleClockFrameData`: the calls made are those made for the frames before
`bad`, at most one for each of them. -/
theorem C1_unresolved_frame_and_later_not_ingested (e : Engine) (x : Collaborators)
    (sync : CeremonyCompressedSync) (pre post : List ClockFrame) (bad : ClockFrame)
    (hframes : sync.TruncatedClockFrames = pre ++ bad :: post)
    (hbad : hasUnresolvedCommit sync bad) :
    (decompressAndStoreCandidates e x sync).1 ≠ .ok () ∧
      (decompressAndStoreCandidates e x sync).2 = (frameLoop e x sync pre []).2 ∧
      (decompressAndStoreCandidates e x sync).2.length ≤ pre.length := by
  have hlen := frameLoop_calls_length e x sync pre []
  have happ := frameLoop_append e x sync pre (bad :: post) []
  unfold decompressAndStoreCandidates
  rw [hframes, happ]
  rcases hpre : frameLoop e x sync pre [] with ⟨out, calls⟩
  rw [hpre] at hlen
  cases out with
  | ok u =>
    have hhead := frameLoop_unresolved_head e x sync bad post hbad calls
    simp only [] at hlen ⊢
    refine ⟨hhead.1, hhead.2, ?_⟩
    rw [hhead.2]
    simpa using hlen
  | error err => simpa using hlen
  | panicked => simpa using hlen

/-- C1 (witness): the amended statement at `syncSecondFrameUnresolved`, whose
second frame is the faulty one. -/
theorem C1_unresolved_frame_and_later_not_ingested_witness :
    hasUnresolvedCommit syncSecondFrameUnresolved ⟨6, sampleHeader ++ sampleCommit, []⟩ ∧
      ((decompressAndStoreCandidates sampleEngine sampleCollaborators
          syncSecondFrameUnresolved).1 ≠ .ok () ∧
        (decompressAndStoreCandidates sampleEngine sampleCollaborators
          syncSecondFrameUnresolved).2
          = (frameLoop sampleEngine sampleCollaborators syncSecondFrameUnresolved
              [⟨5, sampleHeader, []⟩] []).2 ∧
        (decompressAndStoreCandidates sampleEngine sampleCollaborators
          syncSecondFrameUnresolved).2.length ≤ [(⟨5, sampleHeader, []⟩ : ClockFrame)].length) :=
  have h : hasUnresolvedCommit syncSecondFrameUnresolved
      ⟨6, sampleHeader ++ sampleCommit, []⟩ :=
    ⟨0, by decide, fun a ha => by simp [syncSecondFrameUnresolved] at ha⟩
  ⟨h, C1_unresolved_frame_and_later_not_ingested sampleEngine sampleCollaborators
    syncSecondFrameUnresolved [⟨5, sampleHeader, []⟩] [] ⟨6, sampleHeader ++ sampleCommit, []⟩
    rfl h⟩

/-- C2 (the code at the failing input): for a payload whose only frame has a
commit record that no proof record carries, the call does not return an error
wrapping `store.ErrInvalidData`: it faults, on the nil `aggregateProof`
dereferenced for the log line of line 185, and returns nothing. -/
theorem C2_unresolved_commit_faults :
    hasUnresolvedCommit syncUnresolved ⟨6, sampleHeader ++ sampleCommit, []⟩ ∧
      decompressAndStoreCandidates sampleEngine sampleCollaborators syncUnresolved
        = (.panicked, []) := by
  refine ⟨⟨0, by decide, ?_⟩, by decide⟩
  intro a ha
  simp [syncUnresolved] at ha

/-- C3 (the code at the failing input): a request for frames 1 to 33 with the
server at frame 100 is answered with the single window `[1, 33]`, which covers
33 frames: the guard `to-from > 32` lets a distance of exactly 32 through. -/
theorem C3_window_of_thirty_three_frames :
    GetCompressedSyncFrames sampleEngine sampleSyncCollaborators ⟨[1, 2], 1, 33⟩ 1
        = some (none, [SyncEvent.fetch [1, 2] 1 33,
            SyncEvent.send (.compressed ⟨1, 33, [], [], []⟩)]) ∧
      fetchedWindows [SyncEvent.fetch [1, 2] 1 33,
          SyncEvent.send (.compressed ⟨1, 33, [], [], []⟩)] = [(1, 33)] ∧
      windowSize (1, 33) = 33 := by
  decide

/-! ## Lemmas on the pagination loop -/

theorem fetchedWindows_append (a b : List SyncEvent) :
    fetchedWindows (a ++ b) = fetchedWindows a ++ fetchedWindows b := by
  induction a with
  | nil => rfl
  | cons ev rest ih => cases ev <;> simp [fetchedWindows, ih]

theorem tilesRange_single (a b : Nat) (h : a ≤ b) : TilesRange a b [(a, b)] := by
  simp [TilesRange, h]

theorem tilesRange_cons (a t b : Nat) (ws : List (Nat × Nat)) (h : a ≤ t)
    (hws : TilesRange (t + 1) b ws) : TilesRange a b ((a, t) :: ws) := by
  obtain ⟨hne, hhead, hall, hchain, hlast⟩ := hws
  cases ws with
  | nil => exact absurd rfl hne
  | cons w rest =>
    simp only [List.head?_cons, Option.map_some', Option.some.injEq] at hhead
    refine ⟨by simp, by simp, ?_, ?_, ?_⟩
    · intro v hv
      rcases List.mem_cons.mp hv with hv | hv
      · subst hv; exact h
      · exact hall v hv
    · exact List.Chain'.cons hhead hchain
    · simpa [List.getLast?_cons_cons] using hlast

theorem windowEnd_cases (reqTo max from_ : Nat) (hmax : max + 32 < 2 ^ 64)
    (hfrom : from_ ≤ effectiveTo reqTo max) (hle : effectiveTo reqTo max ≤ max) :
    (windowEnd max from_ reqTo = effectiveTo reqTo max ∧
        ¬ ((reqTo = 0 ∨ reqTo > windowEnd max from_ reqTo) ∧ max > windowEnd max from_ reqTo)) ∨
      (windowEnd max from_ reqTo = from_ + 31 ∧ from_ + 32 ≤ effectiveTo reqTo max ∧
        ((reqTo = 0 ∨ reqTo > windowEnd max from_ reqTo) ∧ max > windowEnd max from_ reqTo) ∧
        addU64 (windowEnd max from_ reqTo) 1 = from_ + 32 ∧
        (if reqTo > windowEnd max from_ reqTo then reqTo else 0) = reqTo) := by
  have h31 : addU64 from_ 31 = from_ + 31 := by
    unfold addU64 U64; omega
  have h32 : addU64 (from_ + 31) 1 = from_ + 32 := by
    unfold addU64 U64; omega
  by_cases h0 : reqTo = 0
  · have heff : effectiveTo reqTo max = max := by simp [effectiveTo, h0]
    rw [heff] at hfrom hle ⊢
    by_cases hbig : max > from_ + 31
    · right
      have hw : windowEnd max from_ reqTo = from_ + 31 := by
        simp [windowEnd, h31, hbig, h0]
      rw [hw]
      refine ⟨rfl, by omega, ⟨Or.inl h0, hbig⟩, h32, ?_⟩
      rw [if_neg (by omega)]
      exact h0.symm
    · left
      have hw : windowEnd max from_ reqTo = max := by
        simp [windowEnd, h31, hbig, h0]
      rw [hw]
      exact ⟨rfl, fun h => by omega⟩
  · have heff : effectiveTo reqTo max = reqTo := by simp [effectiveTo, h0]
    rw [heff] at hfrom hle ⊢
    have hsub : subU64 reqTo from_ = reqTo - from_ := by
      unfold subU64 U64; omega
    by_cases hfar : reqTo - from_ > 32
    · right
      have hbig : max > from_ + 31 := by omega
      have hw : windowEnd max from_ reqTo = from_ + 31 := by
        simp [windowEnd, h31, hsub, hfar, hbig]
      rw [hw]
      refine ⟨rfl, by omega, ⟨Or.inr (by omega), hbig⟩, h32, ?_⟩
      rw [if_pos (by omega)]
    · left
      have hw : windowEnd max from_ reqTo = reqTo := by
        simp [windowEnd, h0, hsub, hfar]
      rw [hw]
      exact ⟨rfl, fun h => by omega⟩

theorem syncLoop_tiles (e : Engine) (x : SyncCollaborators) (reqTo max : Nat)
    (hfetch : ∀ tr f a b, ∃ m, x.getCompressedDataClockFrames tr f a b = .ok m)
    (hsend : ∀ tr m, x.sendMsg tr m = none)
    (hmax : max + 32 < 2 ^ 64) (hle : effectiveTo reqTo max ≤ max) :
    ∀ (fuel from_ : Nat) (trace : List SyncEvent), from_ ≤ effectiveTo reqTo max →
      effectiveTo reqTo max - from_ < fuel →
      ∃ evs, syncLoop e x reqTo max fuel from_ reqTo trace = some (none, trace ++ evs) ∧
        TilesRange from_ (effectiveTo reqTo max) (fetchedWindows evs) := by
  intro fuel
  induction fuel with
  | zero => intro from_ trace _ h; omega
  | succ fuel ih =>
    intro from_ trace hfrom hfuel
    obtain ⟨m, hm⟩ := hfetch trace e.filter from_ (windowEnd max from_ reqTo)
    simp only [syncLoop, hm, hsend]
    rcases windowEnd_cases reqTo max from_ hmax hfrom hle with ⟨hw, hstop⟩ | ⟨hw, hroom, hgo, hnext, hto⟩
    · rw [if_neg hstop]
      refine ⟨[SyncEvent.fetch e.filter from_ (windowEnd max from_ reqTo),
        SyncEvent.send (.compressed m)], by simp, ?_⟩
      simp only [fetchedWindows, hw]
      exact tilesRange_single _ _ hfrom
    · rw [if_pos hgo, hnext, hto]
      obtain ⟨evs, hrun, htiles⟩ := ih (from_ + 32)
        (trace ++ [SyncEvent.fetch e.filter from_ (windowEnd max from_ reqTo)] ++
          [SyncEvent.send (.compressed m)]) hroom (by omega)
      refine ⟨[SyncEvent.fetch e.filter from_ (windowEnd max from_ reqTo),
        SyncEvent.send (.compressed m)] ++ evs, ?_, ?_⟩
      · rw [hrun]; simp
      · simp only [List.cons_append, List.nil_append, fetchedWindows, hw]
        exact tilesRange_cons _ _ _ _ (by omega) htiles

theorem fetchedWindows_streamedTrace (filter : Bytes)
    (steps : List ((Nat × Nat) × CeremonyCompressedSync)) :
    fetchedWindows (streamedTrace filter steps) = steps.map Prod.fst := by
  induction steps with
  | nil => rfl
  | cons s rest ih =>
    obtain ⟨w, m⟩ := s
    simp [streamedTrace, fetchedWindows, ih]

theorem syncLoop_nil_streamed (e : Engine) (x : SyncCollaborators) (reqTo max E : Nat)
    (P : Nat → Prop)
    (hstep : ∀ from_, P from_ →
      (windowEnd max from_ reqTo = E ∧ from_ ≤ E ∧
        ¬ ((reqTo = 0 ∨ reqTo > windowEnd max from_ reqTo) ∧
          max > windowEnd max from_ reqTo)) ∨
      (windowEnd max from_ reqTo = from_ + 31 ∧ from_ + 31 < E ∧
        ((reqTo = 0 ∨ reqTo > windowEnd max from_ reqTo) ∧
          max > windowEnd max from_ reqTo) ∧
        addU64 (windowEnd max from_ reqTo) 1 = from_ + 32 ∧
        (if reqTo > windowEnd max from_ reqTo then reqTo else 0) = reqTo ∧
        P (from_ + 32))) :
    ∀ (fuel from_ : Nat) (trace result : List SyncEvent), P from_ →
      syncLoop e x reqTo max fuel from_ reqTo trace = some (none, result) →
      ∃ steps, result = trace ++ streamedTrace e.filter steps ∧ Streamed e x trace steps ∧
        TilesRange from_ E (steps.map Prod.fst) ∧ ∀ w ∈ steps.map Prod.fst, w.2 ≤ E := by
  intro fuel
  induction fuel with
  | zero => intro from_ trace result _ h; simp [syncLoop] at h
  | succ fuel ih =>
    intro from_ trace result hP h
    simp only [syncLoop] at h
    cases hm : x.getCompressedDataClockFrames trace e.filter from_
        (windowEnd max from_ reqTo) with
    | error err => rw [hm] at h; simp at h
    | ok m =>
      rw [hm] at h
      simp only [] at h
      cases hs : x.sendMsg (trace ++ [SyncEvent.fetch e.filter from_ (windowEnd max from_ reqTo)])
          (.compressed m) with
      | some err => rw [hs] at h; simp at h
      | none =>
        rw [hs] at h
        simp only [] at h
        rcases hstep from_ hP with ⟨hw, hle, hstop⟩ | ⟨hw, hlt, hgo, hnext, hto, hP1⟩
        · rw [if_neg hstop] at h
          simp only [Option.some.injEq, Prod.mk.injEq, true_and] at h
          refine ⟨[((from_, windowEnd max from_ reqTo), m)], by simp [streamedTrace, ← h],
            ⟨hm, hs, trivial⟩, ?_, ?_⟩
          · simp only [List.map_cons, List.map_nil, hw]
            exact tilesRange_single _ _ hle
          · intro w hwmem
            simp only [List.map_cons, List.map_nil, List.mem_singleton] at hwmem
            rw [hwmem]
            exact Nat.le_of_eq hw
        · rw [if_pos hgo, hnext, hto] at h
          obtain ⟨steps, hres, hstreamed, htiles, hends⟩ := ih (from_ + 32) _ result hP1 h
          refine ⟨((from_, windowEnd max from_ reqTo), m) :: steps,
            by simp [streamedTrace, hres], ⟨hm, hs, by simpa using hstreamed⟩, ?_, ?_⟩
          · simp only [List.map_cons, hw]
            exact tilesRange_cons _ _ _ _ (by omega) htiles
          · intro w hwmem
            simp only [List.map_cons, List.mem_cons] at hwmem
            rcases hwmem with hwmem | hwmem
            · rw [hwmem]
              simp only [hw]
              omega
            · exact hends w hwmem

theorem syncLoop_nil_of_success (e : Engine) (x : SyncCollaborators) (reqTo max : Nat)
    (hfetch : ∀ tr f a b, ∃ m, x.getCompressedDataClockFrames tr f a b = .ok m)
    (hsend : ∀ tr m, x.sendMsg tr m = none) :
    ∀ (fuel from_ to_ : Nat) (trace : List SyncEvent) (r : Option GoError × List SyncEvent),
      syncLoop e x reqTo max fuel from_ to_ trace = some r → r.1 = none := by
  intro fuel
  induction fuel with
  | zero => intro from_ to_ trace r h; simp [syncLoop] at h
  | succ fuel ih =>
    intro from_ to_ trace r h
    obtain ⟨m, hm⟩ := hfetch trace e.filter from_ (windowEnd max from_ to_)
    simp only [syncLoop, hm, hsend] at h
    split at h
    · exact ih _ _ _ r h
    · simp only [Option.some.injEq] at h
      rw [← h]

/-- C4: when the start frame exists, `from <= max`, `max + 32 < 2^64` and
`ToFrameNumber` is 0 or lies between `from` and `max`, a call of
`GetCompressedSyncFrames` that returns nil has, window by window, fetched the
window from the clock store with the engine filter and sent the message it
got on the stream, with success, and has made no other call; the windows so
streamed tile `[FromFrameNumber, effectiveTo]`: there is at least one, the
first starts at `FromFrameNumber`, every window has `from_i <= to_i`, each
next one starts at `to_i + 1`, and the last ends at `effectiveTo`, which is
`max` for `ToFrameNumber = 0` and `ToFrameNumber` otherwise.  The call does
return nil, within `max - from + 1` iterations, when the store and the stream
do not fail. -/
theorem C4_windows_tile_requested_range (e : Engine) (x : SyncCollaborators)
    (request : ClockFramesRequest)
    (hstart : x.getDataClockFrame request.Filter request.FromFrameNumber = none)
    (hfrom : request.FromFrameNumber ≤ e.frame)
    (hmax : e.frame + 32 < 2 ^ 64)
    (hto : request.ToFrameNumber = 0 ∨
      (request.FromFrameNumber ≤ request.ToFrameNumber ∧ request.ToFrameNumber ≤ e.frame)) :
    (∀ fuel trace, GetCompressedSyncFrames e x request fuel = some (none, trace) →
      ∃ steps : List ((Nat × Nat) × CeremonyCompressedSync),
        trace = streamedTrace e.filter steps ∧ Streamed e x [] steps ∧
        fetchedWindows trace = steps.map Prod.fst ∧
        steps.map Prod.fst ≠ [] ∧
        (steps.map Prod.fst).head?.map Prod.fst = some request.FromFrameNumber ∧
        (∀ w ∈ steps.map Prod.fst, w.1 ≤ w.2) ∧
        List.Chain' (fun w v => v.1 = w.2 + 1) (steps.map Prod.fst) ∧
        (steps.map Prod.fst).getLast?.map Prod.snd
          = some (if request.ToFrameNumber = 0 then e.frame else request.ToFrameNumber)) ∧
    ((∀ tr f a b, ∃ m, x.getCompressedDataClockFrames tr f a b = .ok m) →
      (∀ tr m, x.sendMsg tr m = none) →
      ∀ fuel, e.frame - request.FromFrameNumber < fuel →
        ∃ trace, GetCompressedSyncFrames e x request fuel = some (none, trace)) := by
  have hle : effectiveTo request.ToFrameNumber e.frame ≤ e.frame := by
    unfold effectiveTo; split <;> omega
  have hge : request.FromFrameNumber ≤ effectiveTo request.ToFrameNumber e.frame := by
    unfold effectiveTo; split <;> omega
  constructor
  · intro fuel trace hrun
    simp only [GetCompressedSyncFrames, hstart] at hrun
    obtain ⟨steps, hres, hstreamed, htiles, _⟩ := syncLoop_nil_streamed e x
      request.ToFrameNumber e.frame (effectiveTo request.ToFrameNumber e.frame)
      (fun from_ => from_ ≤ effectiveTo request.ToFrameNumber e.frame)
      (by
        intro from_ hP
        rcases windowEnd_cases request.ToFrameNumber e.frame from_ hmax hP hle with
          ⟨hw, hstop⟩ | ⟨hw, hroom, hgo, hnext, hto1⟩
        · exact Or.inl ⟨hw, hP, hstop⟩
        · exact Or.inr ⟨hw, by omega, hgo, hnext, hto1, hroom⟩)
      fuel request.FromFrameNumber [] trace hge hrun
    rw [List.nil_append] at hres
    refine ⟨steps, hres, hstreamed, ?_, htiles⟩
    rw [hres, fetchedWindows_streamedTrace]
  · intro hfetch hsend fuel hfuel
    obtain ⟨evs, hrun, _⟩ := syncLoop_tiles e x request.ToFrameNumber e.frame hfetch hsend
      hmax hle fuel request.FromFrameNumber [] hge (by omega)
    refine ⟨evs, ?_⟩
    simp only [GetCompressedSyncFrames, hstart]
    simpa using hrun

/-- C4 (witness): frames 10 to 70 with the server at frame 100 are fetched
and sent as the windows `[10, 41]` and `[42, 70]`. -/
theorem C4_windows_tile_requested_range_witness :
    GetCompressedSyncFrames sampleEngine sampleSyncCollaborators ⟨[1, 2], 10, 70⟩ 91
      = some (none, [SyncEvent.fetch [1, 2] 10 41,
          SyncEvent.send (.compressed ⟨10, 41, [], [], []⟩),
          SyncEvent.fetch [1, 2] 42 70,
          SyncEvent.send (.compressed ⟨42, 70, [], [], []⟩)]) ∧
    ((∀ fuel trace,
        GetCompressedSyncFrames sampleEngine sampleSyncCollaborators ⟨[1, 2], 10, 70⟩ fuel
          = some (none, trace) →
        ∃ steps : List ((Nat × Nat) × CeremonyCompressedSync),
          trace = streamedTrace [1, 2] steps ∧
          Streamed sampleEngine sampleSyncCollaborators [] steps ∧
          fetchedWindows trace = steps.map Prod.fst ∧
          steps.map Prod.fst ≠ [] ∧
          (steps.map Prod.fst).head?.map Prod.fst = some 10 ∧
          (∀ w ∈ steps.map Prod.fst, w.1 ≤ w.2) ∧
          List.Chain' (fun w v => v.1 = w.2 + 1) (steps.map Prod.fst) ∧
          (steps.map Prod.fst).getLast?.map Prod.snd = some 70) ∧
      ((∀ tr f a b, ∃ m,
          sampleSyncCollaborators.getCompressedDataClockFrames tr f a b = .ok m) →
        (∀ tr m, sampleSyncCollaborators.sendMsg tr m = none) →
        ∀ fuel, 100 - 10 < fuel →
          ∃ trace,
            GetCompressedSyncFrames sampleEngine sampleSyncCollaborators ⟨[1, 2], 10, 70⟩ fuel
              = some (none, trace))) :=
  ⟨by decide,
    C4_windows_tile_requested_range sampleEngine sampleSyncCollaborators ⟨[1, 2], 10, 70⟩
      rfl (by decide) (by decide) (Or.inr ⟨by decide, by decide⟩)⟩

/-- C5 (the code on the claim's inputs): for a request from another peer with
a non-empty key that the committed store reports as not found and the staged
store returns without error, `handleProvingKeyRequest` subscribes, does the
two lookups and returns nil without any publish: with a nil error,
`!errors.Is(err, store.ErrNotFound)` on line 440 holds and the call returns
before it reaches `publishMessage`. -/
theorem C5_staged_key_is_not_published (e : Engine) (x : KeyCollaborators)
    (peerID address : Bytes) (any : AnyMsg) (request : ProvingKeyRequest)
    (err : GoError) (A : ProvingKeyAnnouncement)
    (hpeer : peerID ≠ e.peerID)
    (hreq : x.unmarshalRequest any = .ok request)
    (hkey : request.ProvingKeyBytes ≠ [])
    (hcommitted : x.getProvingKey request.ProvingKeyBytes = .error err)
    (hnotfound : errorsIs err .ErrNotFound = true)
    (hstaged : x.getStagedProvingKey request.ProvingKeyBytes = (some A, none)) :
    handleProvingKeyRequest e x peerID address any =
      (.ok (), [KeyEvent.subscribe (e.filter ++ peerID) true,
        KeyEvent.getProvingKey request.ProvingKeyBytes,
        KeyEvent.getStagedProvingKey request.ProvingKeyBytes]) := by
  have hlen : request.ProvingKeyBytes.length ≠ 0 := by
    intro h; exact hkey (List.length_eq_zero.mp h)
  simp [handleProvingKeyRequest, hpeer, hreq, hlen, hcommitted, hnotfound, hstaged,
    errorsIsOpt]

/-- C5 (witness): peer `[4]` asks for key `[5]`, which is staged with the
announcement `⟨[42]⟩`; nothing is published. -/
theorem C5_staged_key_is_not_published_witness :
    handleProvingKeyRequest sampleEngine sampleKeyCollaborators [4] [] ⟨"", [5]⟩ =
      (.ok (), [KeyEvent.subscribe ([1, 2] ++ [4]) true, KeyEvent.getProvingKey [5],
        KeyEvent.getStagedProvingKey [5]]) :=
  C5_staged_key_is_not_published sampleEngine sampleKeyCollaborators [4] [] ⟨"", [5]⟩ ⟨[5]⟩
    .ErrNotFound ⟨[42]⟩ (by decide) rfl (by decide) rfl rfl rfl

/-! ## Lemmas on the segment loops -/

theorem segmentLoop_plain (marshal : IntrinsicExecutionOutput → Except GoError Bytes)
    (l : Nat) (h : Bytes) (segments : List Segment) (data : Bytes) :
    segmentLoop marshal l h segments none data
      = .ok (none, data ++ firstSegmentData segments h) := by
  induction segments with
  | nil => simp [segmentLoop, firstSegmentData, firstSegment]
  | cons s rest ih =>
    by_cases hs : s.Hash = h
    · simp [segmentLoop, firstSegmentData, firstSegment, hs]
    · simp only [segmentLoop, if_neg hs, ih]
      simp [firstSegmentData, firstSegment, hs]

theorem hashLoop_plain (marshal : IntrinsicExecutionOutput → Except GoError Bytes)
    (segments : List Segment) (hashes : List Bytes) :
    ∀ (l : Nat) (data : Bytes),
      hashLoop marshal segments l hashes none data
        = .ok (data ++ (hashes.map (firstSegmentData segments)).flatten) := by
  induction hashes with
  | nil => intro l data; simp [hashLoop]
  | cons h hs ih =>
    intro l data
    simp only [hashLoop, segmentLoop_plain, ih]
    simp

theorem buildCommitment_plain (e : Engine) (x : Collaborators) (segments : List Segment)
    (frameNumber k : Nat) (c : CommitmentEntry)
    (htype : c.TypeUrl ≠ x.IntrinsicExecutionOutputType) :
    buildCommitment e x segments frameNumber k c =
      .ok { Filter := e.filter, FrameNumber := frameNumber, Position := k % 2 ^ 32,
            TypeUrl := c.TypeUrl,
            Data := (c.SegmentHashes.map (firstSegmentData segments)).flatten,
            Commitment := c.Commitment } := by
  simp [buildCommitment, htype, hashLoop_plain]

theorem firstSegment_of_unique (segments : List Segment) (h : Bytes) (s : Segment)
    (rest : List Segment) (hs : segmentsWithHash segments h = s :: rest) :
    firstSegment segments h = some s := by
  induction segments with
  | nil => simp [segmentsWithHash] at hs
  | cons t tl ih =>
    by_cases ht : t.Hash = h
    · simp [segmentsWithHash, ht] at hs
      obtain ⟨hts, _⟩ := hs
      subst hts
      simp [firstSegment, ht]
    · simp [segmentsWithHash, ht] at hs
      have := ih hs
      simpa [firstSegment, ht] using this

theorem segmentLoop_first_half_absent
    (marshal : IntrinsicExecutionOutput → Except GoError Bytes) (h : Bytes)
    (segments : List Segment) (out : IntrinsicExecutionOutput) (data : Bytes)
    (hs : segmentsWithHash segments h = []) :
    segmentLoop marshal 0 h segments (some out) data = .ok (some out, data) := by
  induction segments with
  | nil => simp [segmentLoop]
  | cons t tl ih =>
    by_cases ht : t.Hash = h
    · simp [segmentsWithHash, ht] at hs
    · simp [segmentsWithHash, ht] at hs
      simp only [segmentLoop, if_neg ht]
      exact ih (by simpa [segmentsWithHash] using hs)

theorem segmentLoop_first_half_unique
    (marshal : IntrinsicExecutionOutput → Except GoError Bytes) (h : Bytes)
    (segments : List Segment) (s : Segment) (out : IntrinsicExecutionOutput) (data : Bytes)
    (hs : segmentsWithHash segments h = [s]) (hlen : 32 ≤ s.Data.length) :
    segmentLoop marshal 0 h segments (some out) data
      = .ok (some { out with Address := s.Data.take 32, Output := s.Data.drop 32 }, data) := by
  induction segments with
  | nil => simp [segmentsWithHash] at hs
  | cons t tl ih =>
    by_cases ht : t.Hash = h
    · simp [segmentsWithHash, ht] at hs
      obtain ⟨hts, htl⟩ := hs
      subst hts
      have hnot : ¬ t.Data.length < 32 := by omega
      simp only [segmentLoop, if_pos ht, if_true, if_neg hnot]
      exact segmentLoop_first_half_absent marshal h tl _ data
        (by simpa [segmentsWithHash] using htl)
    · simp [segmentsWithHash, ht] at hs
      simp only [segmentLoop, if_neg ht]
      exact ih (by simpa [segmentsWithHash] using hs)

theorem segmentLoop_later_half
    (marshal : IntrinsicExecutionOutput → Except GoError Bytes) (l : Nat) (hl : l ≠ 0)
    (h : Bytes) (segments : List Segment) (s : Segment) (out : IntrinsicExecutionOutput)
    (data : Bytes) (hs : firstSegment segments h = some s) :
    segmentLoop marshal l h segments (some out) data =
      match marshal { out with Proof := s.Data } with
      | .error err => .error (.wrap err decompressMsg)
      | .ok b => .ok (some { out with Proof := s.Data }, b) := by
  induction segments with
  | nil => simp [firstSegment] at hs
  | cons t tl ih =>
    by_cases ht : t.Hash = h
    · simp [firstSegment, ht] at hs
      subst hs
      simp only [segmentLoop, if_pos ht, if_neg hl]
    · simp [firstSegment, ht] at hs
      simp only [segmentLoop, if_neg ht]
      exact ih (by simpa [firstSegment] using hs)

/-! ## Claims on the reconstruction of one commitment -/

/-- C6 (counterexample): an entry of the intrinsic-execution-output type with
the single segment hash `[11]`, carried by exactly one segment (of 40 bytes),
is rebuilt with empty `Data`, not with the segment's bytes. -/
theorem C6_counterexample_intrinsic_single_hash :
    segmentsWithHash [sampleLongSegment] [11] = [sampleLongSegment] ∧
      buildCommitment sampleEngine sampleCollaborators [sampleLongSegment] 5 0
          ⟨sampleCollaborators.IntrinsicExecutionOutputType, [8], [[11]]⟩
        = .ok ⟨[1, 2], 5, 0, "IEO", [], [8]⟩ ∧
      ([] : Bytes) ≠ sampleLongSegment.Data := by
  decide

/-- C6 (amended): for every commitment entry whose `TypeUrl` is not the
intrinsic-execution-output type and which has exactly one segment hash, where
exactly one segment of the payload carries that hash, the rebuilt
`InclusionCommitment` has `Data` equal to that segment's `Data`. -/
theorem C6_single_hash_data_verbatim (e : Engine) (x : Collaborators)
    (segments : List Segment) (frameNumber k : Nat) (c : CommitmentEntry) (h : Bytes)
    (s : Segment)
    (htype : c.TypeUrl ≠ x.IntrinsicExecutionOutputType)
    (hhash : c.SegmentHashes = [h])
    (hone : segmentsWithHash segments h = [s]) :
    ∃ inc, buildCommitment e x segments frameNumber k c = .ok inc ∧ inc.Data = s.Data := by
  refine ⟨_, buildCommitment_plain e x segments frameNumber k c htype, ?_⟩
  simp [hhash, firstSegmentData, firstSegment_of_unique segments h s [] hone]

/-- C6 (witness): an entry of type `"X"` with the hash `[11]`, carried by the
one segment `sampleLongSegment`. -/
theorem C6_single_hash_data_verbatim_witness :
    ∃ inc, buildCommitment sampleEngine sampleCollaborators [sampleLongSegment] 5 0
        ⟨"X", [8], [[11]]⟩ = .ok inc ∧ inc.Data = sampleLongSegment.Data :=
  C6_single_hash_data_verbatim sampleEngine sampleCollaborators [sampleLongSegment] 5 0
    ⟨"X", [8], [[11]]⟩ [11] sampleLongSegment (by decide) rfl (by decide)

/-- C7: for an entry of the intrinsic-execution-output type with exactly two
segment hashes, each carried by exactly one segment (`s1`, of at least 32
bytes, for the first, `s2` for the second), the rebuilt `Data` is the
serialization of `{Address = s1.Data[0:32], Output = s1.Data[32:], Proof =
s2.Data}`; the call fails only when that serialization fails. -/
theorem C7_intrinsic_output_serialized (e : Engine) (x : Collaborators)
    (segments : List Segment) (frameNumber k : Nat) (c : CommitmentEntry) (h1 h2 : Bytes)
    (s1 s2 : Segment)
    (htype : c.TypeUrl = x.IntrinsicExecutionOutputType)
    (hhash : c.SegmentHashes = [h1, h2])
    (hone1 : segmentsWithHash segments h1 = [s1])
    (hone2 : segmentsWithHash segments h2 = [s2])
    (hlen : 32 ≤ s1.Data.length) :
    buildCommitment e x segments frameNumber k c =
      match x.marshalOutput ⟨s1.Data.take 32, s1.Data.drop 32, s2.Data⟩ with
      | .ok b =>
        .ok { Filter := e.filter, FrameNumber := frameNumber, Position := k % 2 ^ 32,
              TypeUrl := c.TypeUrl, Data := b, Commitment := c.Commitment }
      | .error err => .error (.wrap err decompressMsg) := by
  have hfirst := segmentLoop_first_half_unique x.marshalOutput h1 segments s1 ⟨[], [], []⟩ []
    hone1 hlen
  have hsecond := segmentLoop_later_half x.marshalOutput 1 (by decide) h2 segments s2
    ⟨s1.Data.take 32, s1.Data.drop 32, []⟩ [] (firstSegment_of_unique segments h2 s2 [] hone2)
  simp only [buildCommitment, htype, if_true, hhash, hashLoop, hfirst, Nat.zero_add, hsecond]
  cases x.marshalOutput ⟨s1.Data.take 32, s1.Data.drop 32, s2.Data⟩ with
  | error err => rfl
  | ok b => rfl

/-- C7 (witness): the two segments of `sampleHalves`, 33 bytes and 2 bytes. -/
theorem C7_intrinsic_output_serialized_witness :
    buildCommitment sampleEngine sampleCollaborators sampleHalves 5 0
        ⟨sampleCollaborators.IntrinsicExecutionOutputType, [8], [[11], [12]]⟩ =
      match sampleCollaborators.marshalOutput
          ⟨(List.replicate 33 1).take 32, (List.replicate 33 1).drop 32, [5, 5]⟩ with
      | .ok b =>
        .ok { Filter := [1, 2], FrameNumber := 5, Position := 0 % 2 ^ 32,
              TypeUrl := "IEO", Data := b, Commitment := [8] }
      | .error err => .error (.wrap err decompressMsg) :=
  C7_intrinsic_output_serialized sampleEngine sampleCollaborators sampleHalves 5 0
    ⟨sampleCollaborators.IntrinsicExecutionOutputType, [8], [[11], [12]]⟩ [11] [12]
    ⟨[11], List.replicate 33 1⟩ ⟨[12], [5, 5]⟩ rfl rfl (by decide) (by decide) (by decide)

/-- C8: for an entry whose `TypeUrl` is not the intrinsic-execution-output
type, rebuilding the commitment never fails (no error, no fault), and `Data`
is the concatenation, in `SegmentHashes` order, of the `Data` of the first
payload segment whose `Hash` equals each hash, a hash that no segment carries
contributing no bytes. -/
theorem C8_plain_data_is_concatenation (e : Engine) (x : Collaborators)
    (segments : List Segment) (frameNumber k : Nat) (c : CommitmentEntry)
    (htype : c.TypeUrl ≠ x.IntrinsicExecutionOutputType) :
    ∃ inc, buildCommitment e x segments frameNumber k c = .ok inc ∧
      inc.Data = (c.SegmentHashes.map (fun h =>
        match segments.find? (fun s => decide (s.Hash = h)) with
        | some s => s.Data
        | none => [])).flatten :=
  ⟨_, buildCommitment_plain e x segments frameNumber k c htype, rfl⟩

/-- C8 (witness): the hashes `[12]`, `[13]`, `[11]` against `sampleSegments`:
`[13]` is carried by no segment, `[11]` by two. -/
theorem C8_plain_data_is_concatenation_witness :
    ∃ inc, buildCommitment sampleEngine sampleCollaborators sampleSegments 5 0
        ⟨"X", [8], [[12], [13], [11]]⟩ = .ok inc ∧
      inc.Data = ([[12], [13], [11]].map (fun h =>
        match sampleSegments.find? (fun s => decide (s.Hash = h)) with
        | some s => s.Data
        | none => [])).flatten :=
  C8_plain_data_is_concatenation sampleEngine sampleCollaborators sampleSegments 5 0
    ⟨"X", [8], [[12], [13], [11]]⟩ (by decide)

/-! ## Lemmas on the loops over commitments and commit records -/

theorem buildCommitment_fields (e : Engine) (x : Collaborators) (segments : List Segment)
    (frameNumber k : Nat) (c : CommitmentEntry) (ic : InclusionCommitment)
    (h : buildCommitment e x segments frameNumber k c = .ok ic) :
    ic.Position = k % 2 ^ 32 ∧ ic.TypeUrl = c.TypeUrl ∧ ic.Commitment = c.Commitment := by
  unfold buildCommitment at h
  simp only [] at h
  split at h
  · simp only [Outcome.ok.injEq] at h
    subst h
    exact ⟨rfl, rfl, rfl⟩
  · simp at h
  · simp at h

theorem commitmentsLoop_ok (e : Engine) (x : Collaborators) (segments : List Segment)
    (frameNumber : Nat) (cs : List CommitmentEntry) :
    ∀ (k : Nat) (acc r : List InclusionCommitment),
      commitmentsLoop e x segments frameNumber k cs acc = .ok r →
      ∃ outs, r = acc ++ outs ∧ outs.length = cs.length ∧
        ∀ i c, cs[i]? = some c →
          ∃ ic, outs[i]? = some ic ∧
            buildCommitment e x segments frameNumber (k + i) c = .ok ic := by
  induction cs with
  | nil =>
    intro k acc r h
    simp only [commitmentsLoop, Outcome.ok.injEq] at h
    exact ⟨[], by simp [h], rfl, by simp⟩
  | cons c cs ih =>
    intro k acc r h
    simp only [commitmentsLoop] at h
    cases hb : buildCommitment e x segments frameNumber k c with
    | ok ic =>
      rw [hb] at h
      obtain ⟨outs, hr, hlen, hall⟩ := ih (k + 1) (acc ++ [ic]) r h
      refine ⟨ic :: outs, by simp [hr], by simp [hlen], ?_⟩
      intro i c1 hi
      cases i with
      | zero =>
        simp only [List.getElem?_cons_zero, Option.some.injEq] at hi
        subst hi
        exact ⟨ic, by simp, by simpa using hb⟩
      | succ i =>
        simp only [List.getElem?_cons_succ] at hi
        obtain ⟨ic1, h1, h2⟩ := hall i c1 hi
        refine ⟨ic1, by simpa using h1, ?_⟩
        have : k + (i + 1) = k + 1 + i := by omega
        rw [this]
        exact h2
    | error err => rw [hb] at h; simp at h
    | panicked => rw [hb] at h; simp at h

theorem commitmentsLoop_total (e : Engine) (x : Collaborators) (segments : List Segment)
    (frameNumber : Nat) (cs : List CommitmentEntry) :
    ∀ (k : Nat) (acc : List InclusionCommitment),
      (∀ i c, cs[i]? = some c →
        ∃ ic, buildCommitment e x segments frameNumber (k + i) c = .ok ic) →
      ∃ r, commitmentsLoop e x segments frameNumber k cs acc = .ok r := by
  induction cs with
  | nil => intro k acc _; exact ⟨acc, rfl⟩
  | cons c cs ih =>
    intro k acc hall
    obtain ⟨ic, hic⟩ := hall 0 c (by simp)
    simp only [Nat.add_zero] at hic
    simp only [commitmentsLoop, hic]
    apply ih
    intro i c1 hi
    have := hall (i + 1) c1 (by simpa using hi)
    have hk : k + (i + 1) = k + 1 + i := by omega
    rw [hk] at this
    exact this

theorem processCommit_ok (e : Engine) (x : Collaborators) (sync : CeremonyCompressedSync)
    (frame : ClockFrame) (j : Nat) (hj : j < (frame.Input.length - 516) / 74)
    (agg : InclusionAggregateProof) (h : processCommit e x sync frame j = .ok agg) :
    AggregateRebuilt e x sync frame j agg := by
  unfold processCommit at h
  rw [goSlice_commitRecord _ _ hj] at h
  simp only [] at h
  cases hf : findProof (commitRecord frame.Input j) sync.Proofs with
  | none => rw [hf] at h; simp at h
  | some a =>
    rw [hf] at h
    simp only [] at h
    cases hc : commitmentsLoop e x sync.Segments frame.FrameNumber 0 a.Commitments [] with
    | ok incs =>
      rw [hc] at h
      simp only [Outcome.ok.injEq] at h
      subst h
      obtain ⟨outs, hr, hlen, hall⟩ := commitmentsLoop_ok e x sync.Segments frame.FrameNumber
        a.Commitments 0 [] incs hc
      simp only [List.nil_append] at hr
      subst hr
      refine ⟨a, by rw [← findProof_eq_find]; exact hf, rfl, rfl, rfl, hlen, ?_⟩
      intro i c hi
      obtain ⟨ic, h1, h2⟩ := hall i c hi
      simp only [Nat.zero_add] at h2
      obtain ⟨hp, ht, hcm⟩ := buildCommitment_fields _ _ _ _ _ _ _ h2
      exact ⟨ic, h1, hp, fun hlt => by rw [hp]; exact Nat.mod_eq_of_lt hlt, ht, hcm, h2⟩
    | error err => rw [hc] at h; simp at h
    | panicked => rw [hc] at h; simp at h

theorem processCommit_total (e : Engine) (x : Collaborators) (sync : CeremonyCompressedSync)
    (frame : ClockFrame) (j : Nat) (hj : j < (frame.Input.length - 516) / 74)
    (hres : findProof (commitRecord frame.Input j) sync.Proofs ≠ none)
    (hall : ∀ a, findProof (commitRecord frame.Input j) sync.Proofs = some a →
      ∀ i c, a.Commitments[i]? = some c →
        ∃ ic, buildCommitment e x sync.Segments frame.FrameNumber i c = .ok ic) :
    ∃ agg, processCommit e x sync frame j = .ok agg := by
  unfold processCommit
  rw [goSlice_commitRecord _ _ hj]
  simp only []
  cases hf : findProof (commitRecord frame.Input j) sync.Proofs with
  | none => exact absurd hf hres
  | some a =>
    simp only []
    obtain ⟨r, hr⟩ := commitmentsLoop_total e x sync.Segments frame.FrameNumber
      a.Commitments 0 [] (by
        intro i c hi
        simpa using hall a hf i c hi)
    rw [hr]
    exact ⟨_, rfl⟩

theorem commitLoop_ok (e : Engine) (x : Collaborators) (sync : CeremonyCompressedSync)
    (input : Bytes) (frameNumber : Nat) :
    ∀ (n j0 : Nat) (frame full : ClockFrame), frame.Input = input →
      frame.FrameNumber = frameNumber →
      commitLoop e x sync n j0 frame = .ok full →
      full.Input = input ∧ full.FrameNumber = frameNumber ∧
        ∃ outs, full.AggregateProofs = frame.AggregateProofs ++ outs ∧ outs.length = n ∧
          ∀ i, i < n → ∃ agg, outs[i]? = some agg ∧
            processCommit e x sync ⟨frameNumber, input, []⟩ (j0 + i) = .ok agg := by
  intro n
  induction n with
  | zero =>
    intro j0 frame full hin hnum h
    simp only [commitLoop, Outcome.ok.injEq] at h
    subst h
    exact ⟨hin, hnum, [], by simp, rfl, by intro i hi; omega⟩
  | succ n ih =>
    intro j0 frame full hin hnum h
    simp only [commitLoop] at h
    cases hp : processCommit e x sync frame j0 with
    | ok inc =>
      rw [hp] at h
      obtain ⟨h1, h2, outs, h3, h4, h5⟩ := ih (j0 + 1)
        { frame with AggregateProofs := frame.AggregateProofs ++ [inc] } full hin hnum h
      refine ⟨h1, h2, inc :: outs, by simp [h3], by simp [h4], ?_⟩
      intro i hi
      cases i with
      | zero =>
        refine ⟨inc, by simp, ?_⟩
        rw [← hp]
        exact processCommit_congr e x sync _ _ _ hin.symm hnum.symm
      | succ i =>
        obtain ⟨agg, h6, h7⟩ := h5 i (by omega)
        refine ⟨agg, by simpa using h6, ?_⟩
        have : j0 + (i + 1) = j0 + 1 + i := by omega
        rw [this]
        exact h7
    | error err => rw [hp] at h; simp at h
    | panicked => rw [hp] at h; simp at h

theorem commitLoop_total (e : Engine) (x : Collaborators) (sync : CeremonyCompressedSync)
    (input : Bytes) (frameNumber : Nat) :
    ∀ (n j0 : Nat) (frame : ClockFrame), frame.Input = input →
      frame.FrameNumber = frameNumber →
      (∀ i, i < n → ∃ agg,
        processCommit e x sync ⟨frameNumber, input, []⟩ (j0 + i) = .ok agg) →
      ∃ full, commitLoop e x sync n j0 frame = .ok full := by
  intro n
  induction n with
  | zero => intro j0 frame _ _ _; exact ⟨frame, rfl⟩
  | succ n ih =>
    intro j0 frame hin hnum hall
    obtain ⟨agg, hagg⟩ := hall 0 (by omega)
    have hp : processCommit e x sync frame j0 = .ok agg := by
      rw [← hagg]
      exact processCommit_congr e x sync _ _ _ hin hnum
    simp only [commitLoop, hp]
    refine ih (j0 + 1) { frame with AggregateProofs := frame.AggregateProofs ++ [agg] }
      hin hnum ?_
    intro i hi
    have := hall (i + 1) (by omega)
    have hk : j0 + (i + 1) = j0 + 1 + i := by omega
    rw [hk] at this
    exact this

theorem frameLoop_calls_prefix (e : Engine) (x : Collaborators)
    (sync : CeremonyCompressedSync) (frames : List ClockFrame) :
    ∀ calls, calls <+: (frameLoop e x sync frames calls).2 := by
  induction frames with
  | nil => intro calls; simp [frameLoop]
  | cons frame rest ih =>
    intro calls
    simp only [frameLoop]
    cases reconstructFrame e x sync frame with
    | ok full =>
      simp only []
      cases x.marshalFrame full with
      | error err => simp
      | ok f =>
        simp only []
        cases x.handleClockFrameData calls (ingestCallOf e x f) with
        | some err => simp
        | none =>
          simp only []
          exact (List.prefix_append calls [ingestCallOf e x f]).trans (ih _)
    | error err => simp
    | panicked => simp

/-! ## Claims on the reconstruction of a frame -/

/-- C9: for a truncated frame with empty `AggregateProofs` whose commit records
all resolve (each equals the `FrameCommit` of some record of `Proofs`), a
rebuilt frame has exactly `(len(Input) - 516) / 74` aggregate proofs, in
commit-record order; the `j`-th one carries the engine filter, the frame
number and the `Proof` of the first proof record, in payload order, whose
`FrameCommit` is the `j`-th commit record, and one inclusion commitment per
entry of that record, in order, the `i`-th with `Position = i` and the
entry's `TypeUrl` and `Commitment`.  The frame is rebuilt whenever each of
those entries can be. -/
theorem C9_aggregate_proofs_rebuilt (e : Engine) (x : Collaborators)
    (sync : CeremonyCompressedSync) (frame : ClockFrame)
    (hempty : frame.AggregateProofs = [])
    (hres : ∀ j, j < (frame.Input.length - 516) / 74 →
      ∃ a ∈ sync.Proofs, a.FrameCommit = commitRecord frame.Input j) :
    (∀ full, reconstructFrame e x sync frame = .ok full →
      full.AggregateProofs.length = (frame.Input.length - 516) / 74 ∧
      (516 ≤ frame.Input.length →
        (full.AggregateProofs.length : Int) = commitCount frame.Input) ∧
      ∀ j, j < (frame.Input.length - 516) / 74 →
        ∃ agg, full.AggregateProofs[j]? = some agg ∧ AggregateRebuilt e x sync frame j agg) ∧
    (CommitmentsRebuildable e x sync frame →
      ∃ full, reconstructFrame e x sync frame = .ok full) := by
  have hframe : (⟨frame.FrameNumber, frame.Input, []⟩ : ClockFrame) = frame := by
    cases frame
    simp only [ClockFrame.mk.injEq, true_and]
    exact hempty.symm
  constructor
  · intro full hfull
    unfold reconstructFrame at hfull
    rw [commitCount_toNat] at hfull
    obtain ⟨_, _, outs, hout, hlen, hall⟩ := commitLoop_ok e x sync frame.Input
      frame.FrameNumber _ 0 frame full rfl rfl hfull
    rw [hempty, List.nil_append] at hout
    rw [hframe] at hall
    refine ⟨by rw [hout, hlen], ?_, ?_⟩
    · intro hlong
      have hnonneg : 0 ≤ commitCount frame.Input := by
        unfold commitCount
        exact Int.tdiv_nonneg (by omega) (by decide)
      rw [hout, hlen, ← commitCount_toNat, Int.toNat_of_nonneg hnonneg]
    · intro j hj
      obtain ⟨agg, h1, h2⟩ := hall j hj
      rw [Nat.zero_add] at h2
      exact ⟨agg, by rw [hout]; exact h1, processCommit_ok e x sync frame j hj agg h2⟩
  · intro hbuild
    unfold reconstructFrame
    rw [commitCount_toNat]
    apply commitLoop_total e x sync frame.Input frame.FrameNumber _ 0 frame rfl rfl
    intro i hi
    rw [hframe, Nat.zero_add]
    refine processCommit_total e x sync frame i hi (findProof_ne_none _ _ (hres i hi)) ?_
    intro a ha
    rw [findProof_eq_find] at ha
    exact hbuild i hi a ha

/-- C9 (witness): the concrete scenario.  The header and one commit record,
one proof record for it with one entry `{TypeUrl "X", [H1]}` and one segment
`{H1, "abcdef"}` give one aggregate proof with one commitment `{Position 0,
Data "abcdef"}`. -/
theorem C9_aggregate_proofs_rebuilt_witness :
    reconstructFrame sampleEngine sampleCollaborators syncScenario
        ⟨5, sampleHeader ++ sampleCommit, []⟩
      = .ok ⟨5, sampleHeader ++ sampleCommit,
          [⟨[1, 2], 5, [⟨[1, 2], 5, 0, "X", [97, 98, 99, 100, 101, 102], [8]⟩], [4]⟩]⟩ ∧
    ((∀ full, reconstructFrame sampleEngine sampleCollaborators syncScenario
          ⟨5, sampleHeader ++ sampleCommit, []⟩ = .ok full →
        full.AggregateProofs.length = ((sampleHeader ++ sampleCommit).length - 516) / 74 ∧
        (516 ≤ (sampleHeader ++ sampleCommit).length →
          (full.AggregateProofs.length : Int) = commitCount (sampleHeader ++ sampleCommit)) ∧
        ∀ j, j < ((sampleHeader ++ sampleCommit).length - 516) / 74 →
          ∃ agg, full.AggregateProofs[j]? = some agg ∧
            AggregateRebuilt sampleEngine sampleCollaborators syncScenario
              ⟨5, sampleHeader ++ sampleCommit, []⟩ j agg) ∧
      (CommitmentsRebuildable sampleEngine sampleCollaborators syncScenario
          ⟨5, sampleHeader ++ sampleCommit, []⟩ →
        ∃ full, reconstructFrame sampleEngine sampleCollaborators syncScenario
          ⟨5, sampleHeader ++ sampleCommit, []⟩ = .ok full)) :=
  ⟨by decide,
    C9_aggregate_proofs_rebuilt sampleEngine sampleCollaborators syncScenario
      ⟨5, sampleHeader ++ sampleCommit, []⟩ rfl (by
        intro j hj
        have hcount : ((sampleHeader ++ sampleCommit).length - 516) / 74 = 1 := by decide
        have hj0 : j = 0 := by
          change j < ((sampleHeader ++ sampleCommit).length - 516) / 74 at hj
          omega
        subst hj0
        exact ⟨⟨sampleCommit, [4], [⟨"X", [8], [[11]]⟩]⟩, List.mem_cons_self _ _,
          by decide⟩)⟩

/-- C10 (counterexample): in the payload `syncMalformed` the `Input` of frame 7
is empty and that of frame 8 has one byte after the header; the call returns
nil and hands both frames to `handleClockFrameData`. -/
theorem C10_counterexample_malformed_input_ingested :
    violatesInputLayout ([] : Bytes) ∧ violatesInputLayout (sampleHeader ++ [9]) ∧
      decompressAndStoreCandidates sampleEngine sampleCollaborators syncMalformed
        = (.ok (), [ingestCallOf sampleEngine sampleCollaborators [7, 0, 0],
            ingestCallOf sampleEngine sampleCollaborators [8, 517, 0]]) :=
  ⟨Or.inl (by decide), Or.inr (by decide), by decide⟩

/-- C10 (amended): `decompressAndStoreCandidates` does not check the length of
`Input`.  A truncated frame whose `Input` breaks the layout is processed like
any other once the frames before it are ingested.  With fewer than `516 + 74`
bytes there is no commit record and the frame is left as received.  In
general a rebuilt frame keeps `Input` and `FrameNumber` and gains exactly
`(len(Input) - 516) / 74` aggregate proofs, the `j`-th rebuilt from the `j`-th
whole commit record (bytes `516 + 74 j` to `516 + 74 (j + 1)`), so the bytes
after the last whole record play no part; the frame is rebuilt whenever
those records resolve and their entries can be rebuilt; and the rebuilt
frame, still carrying the malformed `Input`, is marshalled and handed to
`handleClockFrameData`. -/
theorem C10_malformed_input_not_rejected (e : Engine) (x : Collaborators)
    (sync : CeremonyCompressedSync) (pre post : List ClockFrame) (frame : ClockFrame)
    (calls : List IngestCall)
    (hframes : sync.TruncatedClockFrames = pre ++ frame :: post)
    (hviol : violatesInputLayout frame.Input)
    (hpre : frameLoop e x sync pre [] = (.ok (), calls)) :
    (frame.Input.length < 516 + 74 → reconstructFrame e x sync frame = .ok frame) ∧
    ((∀ j, j < (frame.Input.length - 516) / 74 →
        ∃ a ∈ sync.Proofs, a.FrameCommit = commitRecord frame.Input j) →
      CommitmentsRebuildable e x sync frame →
      ∃ full, reconstructFrame e x sync frame = .ok full) ∧
    ∀ full f, reconstructFrame e x sync frame = .ok full → x.marshalFrame full = .ok f →
      violatesInputLayout full.Input ∧ full.Input = frame.Input ∧
        full.FrameNumber = frame.FrameNumber ∧
        (∃ outs, full.AggregateProofs = frame.AggregateProofs ++ outs ∧
          outs.length = (frame.Input.length - 516) / 74 ∧
          ∀ j, j < (frame.Input.length - 516) / 74 →
            ∃ agg, outs[j]? = some agg ∧ AggregateRebuilt e x sync frame j agg) ∧
        (calls ++ [ingestCallOf e x f]) <+: (decompressAndStoreCandidates e x sync).2 := by
  refine ⟨?_, ?_, ?_⟩
  · intro hshort
    unfold reconstructFrame
    rw [commitCount_toNat]
    have h0 : (frame.Input.length - 516) / 74 = 0 := by omega
    rw [h0]
    rfl
  · intro hres hbuild
    unfold reconstructFrame
    rw [commitCount_toNat]
    apply commitLoop_total e x sync frame.Input frame.FrameNumber _ 0 frame rfl rfl
    intro i hi
    rw [Nat.zero_add]
    refine processCommit_total e x sync ⟨frame.FrameNumber, frame.Input, []⟩ i hi
      (findProof_ne_none _ _ (hres i hi)) ?_
    intro a ha
    rw [findProof_eq_find] at ha
    exact hbuild i hi a ha
  · intro full f hfull hmarshal
    have hloop := hfull
    unfold reconstructFrame at hloop
    rw [commitCount_toNat] at hloop
    obtain ⟨hin, hnum, outs, hout, hlen, hall⟩ := commitLoop_ok e x sync frame.Input
      frame.FrameNumber _ 0 frame full rfl rfl hloop
    refine ⟨by rw [hin]; exact hviol, hin, hnum, ⟨outs, hout, hlen, ?_⟩, ?_⟩
    · intro j hj
      obtain ⟨agg, h1, h2⟩ := hall j hj
      rw [Nat.zero_add] at h2
      exact ⟨agg, h1,
        processCommit_ok e x sync ⟨frame.FrameNumber, frame.Input, []⟩ j hj agg h2⟩
    · unfold decompressAndStoreCandidates
      rw [hframes, frameLoop_append, hpre]
      simp only [frameLoop, hfull, hmarshal]
      cases x.handleClockFrameData calls (ingestCallOf e x f) with
      | some err => exact List.prefix_refl _
      | none => exact frameLoop_calls_prefix e x sync post _

/-- C10 (witness): frame 8 of `syncMalformedWithRecord`, whose `Input` is the
header, one commit record and a stray byte, after frame 7 (empty `Input`) was
ingested: the record is rebuilt into one aggregate proof, the stray byte is
ignored, and both frames are handed over. -/
theorem C10_malformed_input_not_rejected_witness :
    reconstructFrame sampleEngine sampleCollaborators syncMalformedWithRecord
        ⟨8, sampleHeader ++ sampleCommit ++ [9], []⟩
      = .ok ⟨8, sampleHeader ++ sampleCommit ++ [9],
          [⟨[1, 2], 8, [⟨[1, 2], 8, 0, "X", [97, 98, 99, 100, 101, 102], [8]⟩], [4]⟩]⟩ ∧
    decompressAndStoreCandidates sampleEngine sampleCollaborators syncMalformedWithRecord
      = (.ok (), [ingestCallOf sampleEngine sampleCollaborators [7, 0, 0],
          ingestCallOf sampleEngine sampleCollaborators [8, 591, 1]]) ∧
    (((sampleHeader ++ sampleCommit ++ [9]).length < 516 + 74 →
        reconstructFrame sampleEngine sampleCollaborators syncMalformedWithRecord
          ⟨8, sampleHeader ++ sampleCommit ++ [9], []⟩
            = .ok ⟨8, sampleHeader ++ sampleCommit ++ [9], []⟩) ∧
      ((∀ j, j < ((sampleHeader ++ sampleCommit ++ [9]).length - 516) / 74 →
          ∃ a ∈ syncMalformedWithRecord.Proofs,
            a.FrameCommit = commitRecord (sampleHeader ++ sampleCommit ++ [9]) j) →
        CommitmentsRebuildable sampleEngine sampleCollaborators syncMalformedWithRecord
          ⟨8, sampleHeader ++ sampleCommit ++ [9], []⟩ →
        ∃ full, reconstructFrame sampleEngine sampleCollaborators syncMalformedWithRecord
          ⟨8, sampleHeader ++ sampleCommit ++ [9], []⟩ = .ok full) ∧
      ∀ full f, reconstructFrame sampleEngine sampleCollaborators syncMalformedWithRecord
          ⟨8, sampleHeader ++ sampleCommit ++ [9], []⟩ = .ok full →
        sampleCollaborators.marshalFrame full = .ok f →
        violatesInputLayout full.Input ∧ full.Input = sampleHeader ++ sampleCommit ++ [9] ∧
          full.FrameNumber = 8 ∧
          (∃ outs, full.AggregateProofs = [] ++ outs ∧
            outs.length = ((sampleHeader ++ sampleCommit ++ [9]).length - 516) / 74 ∧
            ∀ j, j < ((sampleHeader ++ sampleCommit ++ [9]).length - 516) / 74 →
              ∃ agg, outs[j]? = some agg ∧
                AggregateRebuilt sampleEngine sampleCollaborators syncMalformedWithRecord
                  ⟨8, sampleHeader ++ sampleCommit ++ [9], []⟩ j agg) ∧
          ([ingestCallOf sampleEngine sampleCollaborators [7, 0, 0]] ++
              [ingestCallOf sampleEngine sampleCollaborators f])
            <+: (decompressAndStoreCandidates sampleEngine sampleCollaborators
              syncMalformedWithRecord).2) :=
  ⟨by decide, by decide,
    C10_malformed_input_not_rejected sampleEngine sampleCollaborators
      syncMalformedWithRecord [⟨7, [], []⟩] [] ⟨8, sampleHeader ++ sampleCommit ++ [9], []⟩
      [ingestCallOf sampleEngine sampleCollaborators [7, 0, 0]] rfl (Or.inr (by decide))
      (by decide)⟩

/-! ## Claims on untrusted segment data, the unknown start frame, gossip
dispatch, empty keys and the responder role -/

/-- C11 (the code at the failing input): in the payload `syncShortFirstHalf`
the only commit record resolves, and the first hash of its
intrinsic-execution-output entry is carried by a segment of three bytes; the
call does not return (neither nil nor an error): `s.Data[32:]` on line 232 is
out of range and faults, before any frame is handed over. -/
theorem C11_short_first_half_faults :
    commitCount (sampleHeader ++ sampleCommit) = 1 ∧
      findProof (commitRecord (sampleHeader ++ sampleCommit) 0) syncShortFirstHalf.Proofs
        = some ⟨sampleCommit, [4], [⟨"IEO", [8], [[11], [12]]⟩]⟩ ∧
      decompressAndStoreCandidates sampleEngine sampleCollaborators syncShortFirstHalf
        = (.panicked, []) := by
  decide

/-- C12: when the lookup of the frame at `FromFrameNumber` fails with
`store.ErrNotFound`, `GetCompressedSyncFrames` makes exactly one collaborator
call, the send of the message with the request's filter, `FromFrameNumber =
0`, `ToFrameNumber = 0` and no frames (so no compressed range is fetched),
and returns nil when that send succeeds; when the lookup fails with any other
error it sends nothing and returns that error, wrapped. -/
theorem C12_unknown_start_frame (e : Engine) (x : SyncCollaborators)
    (request : ClockFramesRequest) (fuel : Nat) (err : GoError)
    (hlookup : x.getDataClockFrame request.Filter request.FromFrameNumber = some err) :
    (errorsIs err .ErrNotFound = true →
      (GetCompressedSyncFrames e x request fuel).map Prod.snd
          = some [SyncEvent.send (.response request.Filter 0 0 [])] ∧
        (x.sendMsg [] (.response request.Filter 0 0 []) = none →
          GetCompressedSyncFrames e x request fuel
            = some (none, [SyncEvent.send (.response request.Filter 0 0 [])]))) ∧
    (errorsIs err .ErrNotFound = false →
      GetCompressedSyncFrames e x request fuel
        = some (some (.wrap err syncMsgText), [])) := by
  constructor
  · intro hnf
    constructor
    · simp only [GetCompressedSyncFrames, hlookup, hnf]
      cases x.sendMsg [] (.response request.Filter 0 0 []) <;> simp
    · intro hsend
      simp [GetCompressedSyncFrames, hlookup, hnf, hsend]
  · intro hother
    simp [GetCompressedSyncFrames, hlookup, hother]

/-- C12 (witness): a request for frame 500 from a store without frames. -/
theorem C12_unknown_start_frame_witness :
    (errorsIs .ErrNotFound .ErrNotFound = true →
      (GetCompressedSyncFrames sampleEngine sampleEmptyStore ⟨[8], 500, 0⟩ 0).map Prod.snd
          = some [SyncEvent.send (.response [8] 0 0 [])] ∧
        (sampleEmptyStore.sendMsg [] (.response [8] 0 0 []) = none →
          GetCompressedSyncFrames sampleEngine sampleEmptyStore ⟨[8], 500, 0⟩ 0
            = some (none, [SyncEvent.send (.response [8] 0 0 [])]))) ∧
    (errorsIs .ErrNotFound .ErrNotFound = false →
      GetCompressedSyncFrames sampleEngine sampleEmptyStore ⟨[8], 500, 0⟩ 0
        = some (some (.wrap .ErrNotFound syncMsgText), [])) :=
  C12_unknown_start_frame sampleEngine sampleEmptyStore ⟨[8], 500, 0⟩ 0 .ErrNotFound rfl

/-- C13: for a gossip message whose `From` is the node's own peer id,
`handleSync` returns nil and calls neither `handleProvingKey` nor
`handleKeyBundle`, whatever `Data` is and whatever the decoders would do
with it. -/
theorem C13_self_message_discarded (e : Engine) (x : GossipCollaborators)
    (message : GossipMessage) (hself : message.From = e.peerID) :
    handleSync e x message = (none, []) := by
  simp [handleSync, hself]

/-- C13 (witness): a message from peer `[9]`, the id of `sampleEngine`. -/
theorem C13_self_message_discarded_witness :
    handleSync sampleEngine sampleGossipCollaborators ⟨[1, 5], [9], []⟩ = (none, []) :=
  C13_self_message_discarded sampleEngine sampleGossipCollaborators ⟨[1, 5], [9], []⟩ rfl

/-- C14: for a gossip message from another peer whose envelope and inner
payload both decode, `handleSync` calls at most one handler:
`handleProvingKey` (once, with the sender, the envelope's address and the
payload) exactly when the type tag is the proving-key-announcement type,
`handleKeyBundle` exactly when it is the key-bundle-announcement type, and
none for any other tag, returning nil; the returned error is the wrapped
error of the handler it called, nil when that handler returned nil. -/
theorem C14_dispatch_by_type_tag (e : Engine) (x : GossipCollaborators)
    (message : GossipMessage) (msg : Envelope) (any : AnyMsg)
    (hfrom : message.From ≠ e.peerID)
    (hmsg : x.unmarshalMessage message.Data = .ok msg)
    (hany : x.unmarshalAny msg.Payload = .ok any)
    (hdistinct : x.ProvingKeyAnnouncementType ≠ x.KeyBundleAnnouncementType) :
    (handleSync e x message).2.length ≤ 1 ∧
    (any.TypeUrl = x.ProvingKeyAnnouncementType →
      handleSync e x message =
        (wrapOpt (x.handleProvingKey message.From msg.Address any) handleSyncText,
          [HandlerCall.handleProvingKey message.From msg.Address any])) ∧
    (any.TypeUrl = x.KeyBundleAnnouncementType →
      handleSync e x message =
        (wrapOpt (x.handleKeyBundle message.From msg.Address any) handleSyncText,
          [HandlerCall.handleKeyBundle message.From msg.Address any])) ∧
    (any.TypeUrl ≠ x.ProvingKeyAnnouncementType →
      any.TypeUrl ≠ x.KeyBundleAnnouncementType → handleSync e x message = (none, [])) ∧
    ((∃ p a y, HandlerCall.handleProvingKey p a y ∈ (handleSync e x message).2) ↔
      any.TypeUrl = x.ProvingKeyAnnouncementType) ∧
    ((∃ p a y, HandlerCall.handleKeyBundle p a y ∈ (handleSync e x message).2) ↔
      any.TypeUrl = x.KeyBundleAnnouncementType) := by
  by_cases hpk : any.TypeUrl = x.ProvingKeyAnnouncementType
  · have hkb : any.TypeUrl ≠ x.KeyBundleAnnouncementType := by
      rw [hpk]; exact hdistinct
    have hrun : handleSync e x message =
        (wrapOpt (x.handleProvingKey message.From msg.Address any) handleSyncText,
          [HandlerCall.handleProvingKey message.From msg.Address any]) := by
      simp only [handleSync, if_neg hfrom, hmsg, hany, if_pos hpk]
      cases x.handleProvingKey message.From msg.Address any <;> rfl
    rw [hrun]
    simp [hpk, hdistinct]
  · by_cases hkb : any.TypeUrl = x.KeyBundleAnnouncementType
    · have hrun : handleSync e x message =
          (wrapOpt (x.handleKeyBundle message.From msg.Address any) handleSyncText,
            [HandlerCall.handleKeyBundle message.From msg.Address any]) := by
        simp only [handleSync, if_neg hfrom, hmsg, hany, if_neg hpk, if_pos hkb]
        cases x.handleKeyBundle message.From msg.Address any <;> rfl
      rw [hrun]
      simp [hkb, Ne.symm hdistinct]
    · have hrun : handleSync e x message = (none, []) := by
        simp only [handleSync, if_neg hfrom, hmsg, hany, if_neg hpk, if_neg hkb]
      rw [hrun]
      simp [hpk, hkb]

/-- C14 (witness): a key-bundle announcement from peer `[4]`. -/
theorem C14_dispatch_by_type_tag_witness :
    handleSync sampleEngine sampleGossipCollaborators ⟨[2, 5], [4], []⟩
      = (none, [HandlerCall.handleKeyBundle [4] [7] ⟨"KBA", [2, 5]⟩]) :=
  (C14_dispatch_by_type_tag sampleEngine sampleGossipCollaborators ⟨[2, 5], [4], []⟩
    ⟨[7], [2, 5]⟩ ⟨"KBA", [2, 5]⟩ (by decide) rfl rfl (by decide)).2.2.1 rfl

/-- C15: for a proving-key request whose `ProvingKeyBytes` is empty,
`handleProvingKeyRequest` returns nil without any collaborator call: no
`GetProvingKey`, no `GetStagedProvingKey`, no publish (and no subscribe). -/
theorem C15_empty_key_ignored (e : Engine) (x : KeyCollaborators)
    (peerID address : Bytes) (any : AnyMsg) (request : ProvingKeyRequest)
    (hreq : x.unmarshalRequest any = .ok request)
    (hkey : request.ProvingKeyBytes = []) :
    handleProvingKeyRequest e x peerID address any = (.ok (), []) := by
  by_cases hpeer : peerID = e.peerID
  · simp [handleProvingKeyRequest, hpeer]
  · simp [handleProvingKeyRequest, hpeer, hreq, hkey]

/-- C15 (witness): peer `[4]` sends a request with an empty key. -/
theorem C15_empty_key_ignored_witness :
    handleProvingKeyRequest sampleEngine sampleKeyCollaborators [4] [] ⟨"", []⟩
      = (.ok (), []) :=
  C15_empty_key_ignored sampleEngine sampleKeyCollaborators [4] [] ⟨"", []⟩ ⟨[]⟩ rfl rfl

/-- C16: in the responder role (`initiator = false`), when `GetDirectChannel`
fails, `GetPublicChannelForProvingKey` returns a nil channel with a nil error,
and the dial is its only substrate call: no stream is opened. -/
theorem C16_responder_dial_failure (x : ChannelCollaborators) (provingKey : Bytes)
    (err : GoError) (hdial : x.getDirectChannel provingKey = .error err) :
    GetPublicChannelForProvingKey x false provingKey
      = ((none, none), [ChannelEvent.dial provingKey]) := by
  simp [GetPublicChannelForProvingKey, hdial]

/-- C16 (witness): key `[5]` on a substrate where no dial succeeds. -/
theorem C16_responder_dial_failure_witness :
    GetPublicChannelForProvingKey sampleChannelCollaborators false [5]
      = ((none, none), [ChannelEvent.dial [5]]) :=
  C16_responder_dial_failure sampleChannelCollaborators [5] (.other 1) rfl

/-! ## Claims on the end and the length of the pagination -/

/-- C17 (counterexample): with the server at frame 100, a request for frames
90 to 110 (start frame present, `from <= max`, `ToFrameNumber > max`) is
answered with the single window `[90, 110]`, which ends beyond `max`: the
requested end is within 32 of the start of the window, so the guard of line
115 does not clamp it. -/
theorem C17_counterexample_window_ends_beyond_max :
    sampleEngine.frame = 100 ∧
      GetCompressedSyncFrames sampleEngine sampleSyncCollaborators ⟨[1, 2], 90, 110⟩ 1
        = some (none, [SyncEvent.fetch [1, 2] 90 110,
            SyncEvent.send (.compressed ⟨90, 110, [], [], []⟩)]) ∧
      fetchedWindows [SyncEvent.fetch [1, 2] 90 110,
          SyncEvent.send (.compressed ⟨90, 110, [], [], []⟩)] = [(90, 110)] := by
  decide

theorem windowEnd_continue_any (reqTo max from_ : Nat) (hmax : max + 32 < 2 ^ 64)
    (hgo : (reqTo = 0 ∨ reqTo > windowEnd max from_ reqTo) ∧
      max > windowEnd max from_ reqTo) :
    addU64 (windowEnd max from_ reqTo) 1 = windowEnd max from_ reqTo + 1 ∧
      addU64 (windowEnd max from_ reqTo) 1 ≤ max ∧
      (if reqTo > windowEnd max from_ reqTo then reqTo else 0) = reqTo := by
  obtain ⟨hreq, hlt⟩ := hgo
  have hadd : addU64 (windowEnd max from_ reqTo) 1 = windowEnd max from_ reqTo + 1 := by
    unfold addU64 U64; omega
  refine ⟨hadd, by omega, ?_⟩
  rcases hreq with h0 | hgt
  · rw [if_neg (by omega)]; exact h0.symm
  · rw [if_pos hgt]

theorem windowEnd_continue (reqTo max from_ : Nat) (hmax : max + 32 < 2 ^ 64)
    (hfrom : from_ ≤ max)
    (hgo : (reqTo = 0 ∨ reqTo > windowEnd max from_ reqTo) ∧
      max > windowEnd max from_ reqTo) :
    windowEnd max from_ reqTo = from_ + 31 ∧ from_ + 32 ≤ max := by
  have h31 : addU64 from_ 31 = from_ + 31 := by
    unfold addU64 U64; omega
  obtain ⟨hreq, hlt⟩ := hgo
  unfold windowEnd at hreq hlt ⊢
  rw [h31] at hreq hlt ⊢
  by_cases hc : reqTo = 0 ∨ subU64 reqTo from_ > 32
  · rw [if_pos hc] at hreq hlt ⊢
    by_cases hbig : max > from_ + 31
    · rw [if_pos hbig] at hlt ⊢
      exact ⟨rfl, by omega⟩
    · rw [if_neg hbig] at hlt
      omega
  · rw [if_neg hc] at hreq hlt
    rcases hreq with h0 | hgt
    · exact absurd (Or.inl h0) hc
    · omega

theorem syncLoop_terminates_of_le (e : Engine) (x : SyncCollaborators) (reqTo max : Nat)
    (hmax : max + 32 < 2 ^ 64) :
    ∀ (fuel from_ : Nat) (trace : List SyncEvent), from_ ≤ max →
      (max - from_) / 32 < fuel →
      ∃ r, syncLoop e x reqTo max fuel from_ reqTo trace = some r := by
  intro fuel
  induction fuel with
  | zero => intro from_ trace _ h; omega
  | succ fuel ih =>
    intro from_ trace hfrom hfuel
    simp only [syncLoop]
    cases x.getCompressedDataClockFrames trace e.filter from_ (windowEnd max from_ reqTo) with
    | error err => exact ⟨_, rfl⟩
    | ok m =>
      simp only []
      cases x.sendMsg (trace ++ [SyncEvent.fetch e.filter from_ (windowEnd max from_ reqTo)])
          (.compressed m) with
      | some err => exact ⟨_, rfl⟩
      | none =>
        simp only []
        by_cases hgo : (reqTo = 0 ∨ reqTo > windowEnd max from_ reqTo) ∧
            max > windowEnd max from_ reqTo
        · obtain ⟨hadd, _, hto⟩ := windowEnd_continue_any reqTo max from_ hmax hgo
          obtain ⟨hw, hroom⟩ := windowEnd_continue reqTo max from_ hmax hfrom hgo
          rw [if_pos hgo, hto, hadd, hw]
          exact ih (from_ + 31 + 1) _ (by omega) (by omega)
        · rw [if_neg hgo]
          exact ⟨_, rfl⟩

theorem syncLoop_terminates (e : Engine) (x : SyncCollaborators) (reqTo max : Nat)
    (hmax : max + 32 < 2 ^ 64) (fuel from_ : Nat) (trace : List SyncEvent)
    (hfuel : max / 32 + 2 ≤ fuel) :
    ∃ r, syncLoop e x reqTo max fuel from_ reqTo trace = some r := by
  cases fuel with
  | zero => omega
  | succ fuel =>
    simp only [syncLoop]
    cases x.getCompressedDataClockFrames trace e.filter from_ (windowEnd max from_ reqTo) with
    | error err => exact ⟨_, rfl⟩
    | ok m =>
      simp only []
      cases x.sendMsg (trace ++ [SyncEvent.fetch e.filter from_ (windowEnd max from_ reqTo)])
          (.compressed m) with
      | some err => exact ⟨_, rfl⟩
      | none =>
        simp only []
        by_cases hgo : (reqTo = 0 ∨ reqTo > windowEnd max from_ reqTo) ∧
            max > windowEnd max from_ reqTo
        · obtain ⟨_, hle, hto⟩ := windowEnd_continue_any reqTo max from_ hmax hgo
          rw [if_pos hgo, hto]
          apply syncLoop_terminates_of_le e x reqTo max hmax fuel _ _ hle
          have h1 : (max - addU64 (windowEnd max from_ reqTo) 1) / 32 ≤ max / 32 :=
            Nat.div_le_div_right (Nat.sub_le _ _)
          omega
        · rw [if_neg hgo]
          exact ⟨_, rfl⟩

theorem syncLoop_window_count (e : Engine) (x : SyncCollaborators) (reqTo max : Nat)
    (hmax : max + 32 < 2 ^ 64) :
    ∀ (fuel from_ : Nat) (trace : List SyncEvent) (r : Option GoError × List SyncEvent),
      from_ ≤ max → syncLoop e x reqTo max fuel from_ reqTo trace = some r →
      ∃ evs, r.2 = trace ++ evs ∧
        (fetchedWindows evs).length ≤ (max - from_) / 32 + 1 := by
  intro fuel
  induction fuel with
  | zero => intro from_ trace r _ h; simp [syncLoop] at h
  | succ fuel ih =>
    intro from_ trace r hfrom h
    simp only [syncLoop] at h
    cases hm : x.getCompressedDataClockFrames trace e.filter from_
        (windowEnd max from_ reqTo) with
    | error err =>
      rw [hm] at h
      simp only [Option.some.injEq] at h
      exact ⟨[SyncEvent.fetch e.filter from_ (windowEnd max from_ reqTo)],
        by simp [← h], by simp [fetchedWindows]⟩
    | ok m =>
      rw [hm] at h
      simp only [] at h
      cases hs : x.sendMsg (trace ++ [SyncEvent.fetch e.filter from_ (windowEnd max from_ reqTo)])
          (.compressed m) with
      | some err =>
        rw [hs] at h
        simp only [Option.some.injEq] at h
        exact ⟨[SyncEvent.fetch e.filter from_ (windowEnd max from_ reqTo),
          SyncEvent.send (.compressed m)], by simp [← h], by simp [fetchedWindows]⟩
      | none =>
        rw [hs] at h
        simp only [] at h
        by_cases hgo : (reqTo = 0 ∨ reqTo > windowEnd max from_ reqTo) ∧
            max > windowEnd max from_ reqTo
        · obtain ⟨hadd, _, hto⟩ := windowEnd_continue_any reqTo max from_ hmax hgo
          obtain ⟨hw, hroom⟩ := windowEnd_continue reqTo max from_ hmax hfrom hgo
          rw [if_pos hgo, hto, hadd, hw] at h
          obtain ⟨evs, hres, hcount⟩ := ih (from_ + 31 + 1) _ r (by omega) h
          refine ⟨[SyncEvent.fetch e.filter from_ (windowEnd max from_ reqTo),
            SyncEvent.send (.compressed m)] ++ evs, by simp [hres, hw], ?_⟩
          rw [fetchedWindows_append]
          simp only [fetchedWindows, List.length_append, List.length_cons, List.length_nil]
          omega
        · rw [if_neg hgo] at h
          simp only [Option.some.injEq] at h
          exact ⟨[SyncEvent.fetch e.filter from_ (windowEnd max from_ reqTo),
            SyncEvent.send (.compressed m)], by simp [← h], by simp [fetchedWindows]⟩

theorem windowEnd_beyond_cases (reqTo max c from_ : Nat) (hmax : max + 32 < 2 ^ 64)
    (hreq : reqTo < 2 ^ 64) (hbeyond : max < reqTo)
    (hP : from_ ≤ max ∧ lastCursor from_ max = c) :
    (windowEnd max from_ reqTo = (if c + 32 < reqTo then max else reqTo) ∧
        from_ ≤ (if c + 32 < reqTo then max else reqTo) ∧
        ¬ ((reqTo = 0 ∨ reqTo > windowEnd max from_ reqTo) ∧
          max > windowEnd max from_ reqTo)) ∨
      (windowEnd max from_ reqTo = from_ + 31 ∧
        from_ + 31 < (if c + 32 < reqTo then max else reqTo) ∧
        ((reqTo = 0 ∨ reqTo > windowEnd max from_ reqTo) ∧
          max > windowEnd max from_ reqTo) ∧
        addU64 (windowEnd max from_ reqTo) 1 = from_ + 32 ∧
        (if reqTo > windowEnd max from_ reqTo then reqTo else 0) = reqTo ∧
        (from_ + 32 ≤ max ∧ lastCursor (from_ + 32) max = c)) := by
  obtain ⟨hfrom, hc⟩ := hP
  unfold lastCursor at hc
  have h31 : addU64 from_ 31 = from_ + 31 := by
    unfold addU64 U64; omega
  have h32 : addU64 (from_ + 31) 1 = from_ + 32 := by
    unfold addU64 U64; omega
  have hsub : subU64 reqTo from_ = reqTo - from_ := by
    unfold subU64 U64; omega
  have hne : reqTo ≠ 0 := by omega
  by_cases hfar : reqTo - from_ > 32
  · by_cases hbig : max > from_ + 31
    · right
      have hw : windowEnd max from_ reqTo = from_ + 31 := by
        simp [windowEnd, h31, hsub, hfar, hbig]
      rw [hw]
      refine ⟨rfl, ?_, ⟨Or.inr (by omega), hbig⟩, h32, by rw [if_pos (by omega)],
        by omega, ?_⟩
      · split <;> omega
      · unfold lastCursor; omega
    · left
      have hw : windowEnd max from_ reqTo = max := by
        simp [windowEnd, h31, hsub, hfar, hbig]
      have hcl : c + 32 < reqTo := by omega
      rw [hw, if_pos hcl]
      exact ⟨rfl, hfrom, fun h => by omega⟩
  · left
    have hw : windowEnd max from_ reqTo = reqTo := by
      simp [windowEnd, hne, hsub, hfar]
    have hcl : ¬ c + 32 < reqTo := by omega
    rw [hw, if_neg hcl]
    exact ⟨rfl, by omega, fun h => by omega⟩

/-- C17 (amended): for a request whose start frame exists, with `from <= max <
ToFrameNumber` and `max + 32 < 2^64`, a call of `GetCompressedSyncFrames` that
returns nil has fetched and sent, window by window, windows that start at
`FromFrameNumber`, are not empty and follow one another without gap.  A window
is cut to `max` only when `ToFrameNumber` is more than 32 beyond its start;
with `c = from + 32 * ((max - from) / 32)` the start of the last window: if
`ToFrameNumber > c + 32`, no window ends beyond `max` and the last one ends at
`max`; if `ToFrameNumber < c + 32`, the last window ends at `ToFrameNumber`,
beyond `max`.  The call does return nil, within `max / 32 + 2` iterations,
when the store and the stream do not fail. -/
theorem C17_stops_at_max_when_end_is_far (e : Engine) (x : SyncCollaborators)
    (request : ClockFramesRequest)
    (hstart : x.getDataClockFrame request.Filter request.FromFrameNumber = none)
    (hfrom : request.FromFrameNumber ≤ e.frame)
    (hbeyond : e.frame < request.ToFrameNumber)
    (hreq : request.ToFrameNumber < 2 ^ 64)
    (hmax : e.frame + 32 < 2 ^ 64) :
    (∀ fuel trace, GetCompressedSyncFrames e x request fuel = some (none, trace) →
      ∃ steps : List ((Nat × Nat) × CeremonyCompressedSync),
        trace = streamedTrace e.filter steps ∧ Streamed e x [] steps ∧
        fetchedWindows trace = steps.map Prod.fst ∧
        steps.map Prod.fst ≠ [] ∧
        (steps.map Prod.fst).head?.map Prod.fst = some request.FromFrameNumber ∧
        (∀ w ∈ steps.map Prod.fst, w.1 ≤ w.2) ∧
        List.Chain' (fun w v => v.1 = w.2 + 1) (steps.map Prod.fst) ∧
        (lastCursor request.FromFrameNumber e.frame + 32 < request.ToFrameNumber →
          (∀ w ∈ steps.map Prod.fst, w.2 ≤ e.frame) ∧
            (steps.map Prod.fst).getLast?.map Prod.snd = some e.frame) ∧
        (request.ToFrameNumber < lastCursor request.FromFrameNumber e.frame + 32 →
          (steps.map Prod.fst).getLast?.map Prod.snd = some request.ToFrameNumber)) ∧
    ((∀ tr f a b, ∃ m, x.getCompressedDataClockFrames tr f a b = .ok m) →
      (∀ tr m, x.sendMsg tr m = none) →
      ∀ fuel, e.frame / 32 + 2 ≤ fuel →
        ∃ trace, GetCompressedSyncFrames e x request fuel = some (none, trace)) := by
  constructor
  · intro fuel trace hrun
    simp only [GetCompressedSyncFrames, hstart] at hrun
    obtain ⟨steps, hres, hstreamed, htiles, hends⟩ := syncLoop_nil_streamed e x
      request.ToFrameNumber e.frame
      (if lastCursor request.FromFrameNumber e.frame + 32 < request.ToFrameNumber
        then e.frame else request.ToFrameNumber)
      (fun from_ => from_ ≤ e.frame ∧
        lastCursor from_ e.frame = lastCursor request.FromFrameNumber e.frame)
      (fun from_ hP => windowEnd_beyond_cases request.ToFrameNumber e.frame
        (lastCursor request.FromFrameNumber e.frame) from_ hmax hreq hbeyond hP)
      fuel request.FromFrameNumber [] trace ⟨hfrom, rfl⟩ hrun
    rw [List.nil_append] at hres
    obtain ⟨hne, hhead, hall, hchain, hlast⟩ := htiles
    refine ⟨steps, hres, hstreamed, ?_, hne, hhead, hall, hchain, ?_, ?_⟩
    · rw [hres, fetchedWindows_streamedTrace]
    · intro hfar
      rw [if_pos hfar] at hends hlast
      exact ⟨hends, hlast⟩
    · intro hnear
      rw [if_neg (by omega)] at hlast
      exact hlast
  · intro hfetch hsend fuel hfuel
    obtain ⟨r, hr⟩ := syncLoop_terminates e x request.ToFrameNumber e.frame hmax fuel
      request.FromFrameNumber [] hfuel
    have hnil := syncLoop_nil_of_success e x request.ToFrameNumber e.frame hfetch hsend
      fuel request.FromFrameNumber request.ToFrameNumber [] r hr
    refine ⟨r.2, ?_⟩
    simp only [GetCompressedSyncFrames, hstart]
    rw [hr, ← hnil]

/-- C17 (witness): frames 10 to 110 with the server at frame 100: the last
window starts at 74, `110 > 74 + 32`, and the windows sent are `[10, 41]`,
`[42, 73]` and `[74, 100]`. -/
theorem C17_stops_at_max_when_end_is_far_witness :
    GetCompressedSyncFrames sampleEngine sampleSyncCollaborators ⟨[1, 2], 10, 110⟩ 5
      = some (none, [SyncEvent.fetch [1, 2] 10 41,
          SyncEvent.send (.compressed ⟨10, 41, [], [], []⟩),
          SyncEvent.fetch [1, 2] 42 73,
          SyncEvent.send (.compressed ⟨42, 73, [], [], []⟩),
          SyncEvent.fetch [1, 2] 74 100,
          SyncEvent.send (.compressed ⟨74, 100, [], [], []⟩)]) ∧
    lastCursor 10 100 + 32 < 110 ∧
    ((∀ fuel trace,
        GetCompressedSyncFrames sampleEngine sampleSyncCollaborators ⟨[1, 2], 10, 110⟩ fuel
          = some (none, trace) →
        ∃ steps : List ((Nat × Nat) × CeremonyCompressedSync),
          trace = streamedTrace [1, 2] steps ∧
          Streamed sampleEngine sampleSyncCollaborators [] steps ∧
          fetchedWindows trace = steps.map Prod.fst ∧
          steps.map Prod.fst ≠ [] ∧
          (steps.map Prod.fst).head?.map Prod.fst = some 10 ∧
          (∀ w ∈ steps.map Prod.fst, w.1 ≤ w.2) ∧
          List.Chain' (fun w v => v.1 = w.2 + 1) (steps.map Prod.fst) ∧
          (lastCursor 10 100 + 32 < 110 →
            (∀ w ∈ steps.map Prod.fst, w.2 ≤ 100) ∧
              (steps.map Prod.fst).getLast?.map Prod.snd = some 100) ∧
          (110 < lastCursor 10 100 + 32 →
            (steps.map Prod.fst).getLast?.map Prod.snd = some 110)) ∧
      ((∀ tr f a b, ∃ m,
          sampleSyncCollaborators.getCompressedDataClockFrames tr f a b = .ok m) →
        (∀ tr m, sampleSyncCollaborators.sendMsg tr m = none) →
        ∀ fuel, 100 / 32 + 2 ≤ fuel →
          ∃ trace,
            GetCompressedSyncFrames sampleEngine sampleSyncCollaborators ⟨[1, 2], 10, 110⟩
              fuel = some (none, trace))) :=
  ⟨by decide, by decide,
    C17_stops_at_max_when_end_is_far sampleEngine sampleSyncCollaborators ⟨[1, 2], 10, 110⟩
      rfl (by decide) (by decide) (by decide) (by decide)⟩

/-- C18: with `max + 32 < 2^64`, the pagination loop of
`GetCompressedSyncFrames` terminates for every `FromFrameNumber` and
`ToFrameNumber`, whatever the store and the stream answer: `max / 32 + 2`
iterations are enough for the call to return.  When `from <= max`, a call
that returns has fetched at most `(max - from) / 32 + 1` windows. -/
theorem C18_pagination_terminates (e : Engine) (x : SyncCollaborators)
    (request : ClockFramesRequest) (hmax : e.frame + 32 < 2 ^ 64) :
    (∀ fuel, e.frame / 32 + 2 ≤ fuel →
      ∃ r, GetCompressedSyncFrames e x request fuel = some r) ∧
    (request.FromFrameNumber ≤ e.frame →
      ∀ fuel r, GetCompressedSyncFrames e x request fuel = some r →
        (fetchedWindows r.2).length ≤ (e.frame - request.FromFrameNumber) / 32 + 1) := by
  constructor
  · intro fuel hfuel
    unfold GetCompressedSyncFrames
    cases x.getDataClockFrame request.Filter request.FromFrameNumber with
    | some err =>
      simp only []
      split
      · exact ⟨_, rfl⟩
      · cases x.sendMsg [] (.response request.Filter 0 0 []) with
        | some err1 => exact ⟨_, rfl⟩
        | none => exact ⟨_, rfl⟩
    | none =>
      exact syncLoop_terminates e x request.ToFrameNumber e.frame hmax fuel
        request.FromFrameNumber [] hfuel
  · intro hfrom fuel r hrun
    unfold GetCompressedSyncFrames at hrun
    cases hl : x.getDataClockFrame request.Filter request.FromFrameNumber with
    | some err =>
      rw [hl] at hrun
      simp only [] at hrun
      split at hrun
      · simp only [Option.some.injEq] at hrun
        simp [← hrun, fetchedWindows]
      · cases hs : x.sendMsg [] (.response request.Filter 0 0 []) with
        | some err1 =>
          rw [hs] at hrun
          simp only [Option.some.injEq] at hrun
          simp [← hrun, fetchedWindows]
        | none =>
          rw [hs] at hrun
          simp only [Option.some.injEq] at hrun
          simp [← hrun, fetchedWindows]
    | none =>
      rw [hl] at hrun
      obtain ⟨evs, hres, hcount⟩ := syncLoop_window_count e x request.ToFrameNumber e.frame
        hmax fuel request.FromFrameNumber [] r hfrom hrun
      rw [List.nil_append] at hres
      rw [hres]
      exact hcount

/-- C18 (witness): the server at frame 100 and a request from frame
`2^64 - 1`, where `from + 31` wraps around: the call returns after four
windows. -/
theorem C18_pagination_terminates_witness :
    (GetCompressedSyncFrames sampleEngine sampleSyncCollaborators
        ⟨[1, 2], 2 ^ 64 - 1, 0⟩ 5).map (fun r => (r.1, fetchedWindows r.2))
      = some (none, [(2 ^ 64 - 1, 30), (31, 62), (63, 94), (95, 100)]) ∧
    ((∀ fuel, 100 / 32 + 2 ≤ fuel →
        ∃ r, GetCompressedSyncFrames sampleEngine sampleSyncCollaborators
          ⟨[1, 2], 2 ^ 64 - 1, 0⟩ fuel = some r) ∧
      (2 ^ 64 - 1 ≤ 100 →
        ∀ fuel r, GetCompressedSyncFrames sampleEngine sampleSyncCollaborators
            ⟨[1, 2], 2 ^ 64 - 1, 0⟩ fuel = some r →
          (fetchedWindows r.2).length ≤ (100 - (2 ^ 64 - 1)) / 32 + 1)) :=
  ⟨by decide,
    C18_pagination_terminates sampleEngine sampleSyncCollaborators ⟨[1, 2], 2 ^ 64 - 1, 0⟩
      (by decide)⟩

/-! ## Claims on the commit-record slices and on duplicate segments -/

/-- C19: for an `Input` of any length, with `commits` the truncating quotient
`(len(Input) - 516) / 74`, every slice `Input[516 + 74 j : 516 + 74 (j + 1)]`
taken for `0 <= j < commits` lies within `Input` (the slice expression does
not fault and yields 74 bytes); and when `len(Input) < 516 + 74`, `commits`
is not positive, the loop body never runs and the frame is left as it is. -/
theorem C19_commit_slices_in_range (input : Bytes) :
    (∀ j : Nat, (j : Int) < commitCount input →
      516 + 74 * (j + 1) ≤ input.length ∧
        goSlice input (516 + j * 74) (516 + (j + 1) * 74) = some (commitRecord input j) ∧
        (commitRecord input j).length = 74) ∧
    (input.length < 516 + 74 →
      commitCount input ≤ 0 ∧
        ∀ (e : Engine) (x : Collaborators) (sync : CeremonyCompressedSync)
          (frame : ClockFrame), frame.Input = input →
          reconstructFrame e x sync frame = .ok frame) := by
  constructor
  · intro j hj
    have hj1 : j < (input.length - 516) / 74 := (lt_commitCount_iff input j).mp hj
    refine ⟨by omega, goSlice_commitRecord input j hj1, ?_⟩
    simp only [commitRecord, List.length_drop, List.length_take]
    omega
  · intro hshort
    have h0 : (input.length - 516) / 74 = 0 := by omega
    constructor
    · by_contra hpos
      have h1 : ((0 : Nat) : Int) < commitCount input := by
        simpa using hpos
      have := (lt_commitCount_iff input 0).mp h1
      omega
    · intro e x sync frame hin
      unfold reconstructFrame
      rw [commitCount_toNat, hin, h0]
      rfl

/-- C19 (witness): a header followed by one commit record and a stray byte:
the one slice taken is the commit record. -/
theorem C19_commit_slices_in_range_witness :
    516 + 74 * (0 + 1) ≤ (sampleHeader ++ sampleCommit ++ [9]).length ∧
      goSlice (sampleHeader ++ sampleCommit ++ [9]) (516 + 0 * 74) (516 + (0 + 1) * 74)
        = some (commitRecord (sampleHeader ++ sampleCommit ++ [9]) 0) ∧
      (commitRecord (sampleHeader ++ sampleCommit ++ [9]) 0).length = 74 :=
  (C19_commit_slices_in_range (sampleHeader ++ sampleCommit ++ [9])).1 0 (by decide)

/-- C20 (the code at the failing input): in `sampleDuplicateHalves` two
segments carry the first hash `[11]`, the first with bytes 1 and the second
with bytes 2.  The rebuilt `Data` serializes `Address` and `Output` of the
second one, not of the first, whose serialization is different: the branch
for the first half has no `break`, so the last matching segment wins, while
`Proof` comes from the first segment with the second hash. -/
theorem C20_first_half_takes_last_match :
    firstSegment sampleDuplicateHalves [11] = some ⟨[11], List.replicate 33 1⟩ ∧
      buildCommitment sampleEngine sampleCollaborators sampleDuplicateHalves 5 0
          ⟨sampleCollaborators.IntrinsicExecutionOutputType, [8], [[11], [12]]⟩
        = .ok ⟨[1, 2], 5, 0, "IEO",
            List.replicate 32 2 ++ [256] ++ [2] ++ [256] ++ [5, 5], [8]⟩ ∧
      sampleCollaborators.marshalOutput
          ⟨(List.replicate 33 1).take 32, (List.replicate 33 1).drop 32, [5, 5]⟩
        = .ok (List.replicate 32 1 ++ [256] ++ [1] ++ [256] ++ [5, 5]) ∧
      (List.replicate 32 2 ++ [256] ++ [2] ++ [256] ++ [5, 5] : Bytes)
        ≠ List.replicate 32 1 ++ [256] ++ [1] ++ [256] ++ [5, 5] :=
  ⟨by decide, by decide, rfl, by decide⟩

end Ceremony
